import Mathlib

/-!
Verification development for the ScholarlyTrust metadata pipeline
(`src/api_utils.py`).  The Python functions relevant to the claims are
shallowly embedded: raw provider payloads become a `Json` inductive,
the sanitizing rules, aggregators, assessment guards and the LLM
response parser become executable Lean functions mirroring the source
line by line, and Python exceptions become `Except Unit` failures.
-/

set_option maxHeartbeats 1000000

/-- JSON values as produced by the providers and consumed by the Python code.
Numbers are modelled as integers (the fields the claims touch are ints). -/
inductive Json where
  | null
  | bool (b : Bool)
  | num (n : Int)
  | str (s : String)
  | arr (l : List Json)
  | obj (l : List (String × Json))

mutual

def Json.beq : Json → Json → Bool
  | .null, .null => true
  | .bool a, .bool b => a == b
  | .num a, .num b => a == b
  | .str a, .str b => a == b
  | .arr a, .arr b => Json.beqList a b
  | .obj a, .obj b => Json.beqObj a b
  | _, _ => false

def Json.beqList : List Json → List Json → Bool
  | [], [] => true
  | x :: xs, y :: ys => Json.beq x y && Json.beqList xs ys
  | _, _ => false

def Json.beqObj : List (String × Json) → List (String × Json) → Bool
  | [], [] => true
  | (k, v) :: xs, (k', v') :: ys => k == k' && Json.beq v v' && Json.beqObj xs ys
  | _, _ => false

end

mutual

theorem Json.beq_iff : ∀ a b : Json, Json.beq a b = true ↔ a = b
  | .null, b => by cases b <;> simp [Json.beq]
  | .bool a, b => by cases b <;> simp [Json.beq]
  | .num a, b => by cases b <;> simp [Json.beq]
  | .str a, b => by cases b <;> simp [Json.beq]
  | .arr a, b => by
      cases b <;> simp [Json.beq]
      exact Json.beqList_iff a _
  | .obj a, b => by
      cases b <;> simp [Json.beq]
      exact Json.beqObj_iff a _

theorem Json.beqList_iff : ∀ a b : List Json, Json.beqList a b = true ↔ a = b
  | [], [] => by simp [Json.beqList]
  | [], _ :: _ => by simp [Json.beqList]
  | _ :: _, [] => by simp [Json.beqList]
  | x :: xs, y :: ys => by
      simp [Json.beqList, Json.beq_iff x y, Json.beqList_iff xs ys]

theorem Json.beqObj_iff : ∀ a b : List (String × Json), Json.beqObj a b = true ↔ a = b
  | [], [] => by simp [Json.beqObj]
  | [], _ :: _ => by simp [Json.beqObj]
  | _ :: _, [] => by simp [Json.beqObj]
  | (k, v) :: xs, (k', v') :: ys => by
      simp [Json.beqObj, Json.beq_iff v v', Json.beqObj_iff xs ys, and_assoc]

end

instance : DecidableEq Json := fun a b => decidable_of_iff _ (Json.beq_iff a b)

namespace Json

/-- Python `d[k]` / `d.get(k)` on a dict: first binding of the key. -/
def lookup (k : String) : List (String × Json) → Option Json
  | [] => none
  | (k', v) :: rest => if k' = k then some v else lookup k rest

/-- Python `d.get(k, dflt)`. -/
def getD (o : List (String × Json)) (k : String) (dflt : Json) : Json :=
  (lookup k o).getD dflt

/-- Python truthiness of a JSON value. -/
def truthy : Json → Bool
  | null => false
  | bool b => b
  | num n => n != 0
  | str s => s ≠ ""
  | arr l => !l.isEmpty
  | obj l => !l.isEmpty

def isObj : Json → Bool
  | obj _ => true
  | _ => false

def isArr : Json → Bool
  | arr _ => true
  | _ => false

/-- Python `isinstance(v, dict)` view. -/
def asObj : Json → Except Unit (List (String × Json))
  | obj l => .ok l
  | _ => .error ()

end Json

/-- Python `str.strip` whitespace set (ASCII model). -/
def isPyWs (c : Char) : Bool :=
  c = ' ' || c = '\t' || c = '\n' || c = '\r' || c = '\x0b' || c = '\x0c'

/-- Python `str.strip()` on a character list. -/
def stripChars (l : List Char) : List Char :=
  ((l.dropWhile isPyWs).reverse.dropWhile isPyWs).reverse

/-- Python `str.strip()`. -/
def pyStrip (s : String) : String :=
  String.mk (stripChars s.toList)

/-- Python `str.lower()` (ASCII model). -/
def pyLower (s : String) : String :=
  String.mk (s.toList.map Char.toLower)

/-- Python `str.upper()` (ASCII model). -/
def pyUpper (s : String) : String :=
  String.mk (s.toList.map Char.toUpper)

/-- Whether `l1` matches the beginning of `l2`. -/
def startsWithL : List Char → List Char → Bool
  | [], _ => true
  | _ :: _, [] => false
  | c :: cs, d :: ds => c = d && startsWithL cs ds

/-- Predicate `containsSeq pat l`: `pat` occurs as a contiguous block in `l`
(Python `pat in s`). -/
def containsSeq (pat : List Char) : List Char → Bool
  | [] => startsWithL pat []
  | c :: cs => startsWithL pat (c :: cs) || containsSeq pat cs

/-- Python `'https://openalex.org/' in s`. -/
def containsUrl (s : String) : Bool :=
  containsSeq "https://openalex.org/".toList s.toList

/-- The module constant `NOT_FOUND = "Not Found"`. -/
def NOT_FOUND : String := "Not Found"

/-- The module constant `ERROR_STATE`. -/
def ERROR_STATE : String := "ERROR_STATE"

/-- The module constant `HIJACKED_ISSN`. -/
def HIJACKED_ISSN : String := "HIJACKED_ISSN"

/-! ### Record Sanitizer: source-record rule (`pre_process_journal_openalex_data`) -/

/-- The `fields_to_remove` set of `pre_process_journal_openalex_data`. -/
def journalFieldsToRemove : List String :=
  ["meta", "alternate_titles", "abbreviated_title", "topic_share", "x_concepts", "id"]

/-- The `topics` comprehension: keep only entries that are dicts carrying
`display_name`, shrunk to that single key (the 25-truncation is applied by
the caller). -/
def cleanTopics : List Json → List Json
  | [] => []
  | x :: rest =>
    match x with
    | .obj o =>
      match Json.lookup "display_name" o with
      | some w => .obj [("display_name", w)] :: cleanTopics rest
      | none => cleanTopics rest
    | _ => cleanTopics rest

/-- The `clean_dict` helper of `pre_process_journal_openalex_data`. -/
def cleanJournalDict : List (String × Json) → List (String × Json)
  | [] => []
  | (k, v) :: rest =>
    let tail := cleanJournalDict rest
    if k ∈ journalFieldsToRemove then tail
    else if k = "topics" ∧ v.isArr then
      match v with
      | .arr l => ("topics", .arr (cleanTopics (l.take 25))) :: tail
      | _ => tail
    else (k, v) :: tail

/-- Top level of `pre_process_journal_openalex_data`.  Python raises
(surfaced as `none`) when iterating a non-iterable `results` value;
iterating a dict yields its keys and iterating a string yields one-char
strings, neither of which pass `isinstance(item, dict)`. -/
def mapCleanJournal : List Json → List Json
  | [] => []
  | x :: rest =>
    match x with
    | .obj d => .obj (cleanJournalDict d) :: mapCleanJournal rest
    | _ => mapCleanJournal rest

def pre_process_journal_openalex_data : Json → Option Json
  | .obj o =>
    match Json.lookup "results" o with
    | some (.arr items) => some (.arr (mapCleanJournal items))
    | some (.obj _) => some (.arr [])
    | some (.str _) => some (.arr [])
    | some .null => none
    | some (.num _) => none
    | some (.bool _) => none
    | none => some (.obj (cleanJournalDict o))
  | .arr items => some (.arr (mapCleanJournal items))
  | j => some j

/-! ### Record Sanitizer: work-record rule
(`pre_processed_research_paper_openalex_metadata`) -/

/-- The `keys_to_remove` set of the work-record rule. -/
def workKeysToRemove : List String :=
  ["primary_location", "mesh", "best_oa_location", "referenced_works",
   "related_works", "abstract_inverted_index", "abstract_inverted_index_v3",
   "cited_by_api_url"]

/-- A value that is a string containing the OpenAlex entity-URL prefix. -/
def isUrlStr : Json → Bool
  | .str s => containsUrl s
  | _ => false

/-- Python `isinstance(v, list) and all(isinstance(x, str) and url in x for x in v)`
(true on the empty list). -/
def isAllUrlList : Json → Bool
  | .arr l => l.all isUrlStr
  | _ => false

/-- The `concepts` comprehension of the work-record rule. -/
def cleanConcepts : List Json → List Json
  | [] => []
  | x :: rest =>
    match x with
    | .obj o =>
      match Json.lookup "display_name" o with
      | some w => .obj [("display_name", w)] :: cleanConcepts rest
      | none => cleanConcepts rest
    | _ => cleanConcepts rest

mutual

/-- The `clean_dict` helper of the work-record rule, on the entry list of a dict. -/
def cleanWorkObj : List (String × Json) → List (String × Json)
  | [] => []
  | (k, v) :: rest =>
    let tail := cleanWorkObj rest
    if k ∈ workKeysToRemove then tail
    else if k = "id" ∨ k.endsWith "_id" then tail
    else if isUrlStr v then tail
    else if isAllUrlList v then tail
    else if k = "concepts" ∧ v.isArr then
      match v with
      | .arr cs =>
        let cc := cleanConcepts cs
        if cc.isEmpty then tail else (k, .arr cc) :: tail
      | _ => tail
    else
      match v with
      | .obj o =>
        let c := cleanWorkObj o
        if c.isEmpty then tail else (k, .obj c) :: tail
      | .arr l =>
        let c := cleanWorkList l
        if c.isEmpty then tail else (k, .arr c) :: tail
      | _ => (k, v) :: tail

/-- The inner loop of `clean_dict` over a list value: dict items are cleaned
recursively (kept when non-empty), URL strings are dropped, everything else
(including nested lists) is kept as-is. -/
def cleanWorkList : List Json → List Json
  | [] => []
  | x :: rest =>
    let tail := cleanWorkList rest
    match x with
    | .obj o =>
      let c := cleanWorkObj o
      if c.isEmpty then tail else (.obj c) :: tail
    | .str s => if containsUrl s then tail else (.str s) :: tail
    | other => other :: tail

end

/-- The comprehension `[clean_dict(paper) for paper in ...]`: Python raises on a non-dict
element (`none` here). -/
def mapCleanWork : List Json → Option (List Json)
  | [] => some []
  | x :: rest =>
    match x with
    | .obj o =>
      match mapCleanWork rest with
      | some out => some (.obj (cleanWorkObj o) :: out)
      | none => none
    | _ => none

/-- Top level of `pre_processed_research_paper_openalex_metadata`: a list is
mapped through `clean_dict` (a non-dict element raises, surfaced as `none`),
a dict is cleaned, anything else is returned unchanged. -/
def pre_processed_research_paper_openalex_metadata : Json → Option Json
  | .obj o => some (.obj (cleanWorkObj o))
  | .arr l => (mapCleanWork l).map Json.arr
  | j => some j

/-! ### Source Client and Journal Aggregator (`get_journal_metadata`) -/

/-- Outcome of one `requests.get`: a transport exception, or a response with
a status code and a JSON body. -/
inductive HttpResult where
  | exn
  | ok (status : Nat) (body : Json)
deriving DecidableEq

/-- Canonical journal bundle, the dict built at the end of
`get_journal_metadata` (field names as in the source, including the
`pulished` typo). -/
structure JournalRecord where
  title : Json
  publisher : Json
  homepage_url : Json
  is_in_doaj : Json
  is_open_access : Json
  authors_who_pulished_in_this_journal_info : Json
  country_code : Json
  works_count : Json
  cited_by_count : Json
  fields_of_research : List Json
  is_indexed_in_scopus : Json
  h_index : Json
  i10_index : Json
  two_yr_mean_citedness : Json
  host_organization_name : Json
  apc_prices : Json
  retracted_papers_count : Nat
  retraction_rate : ℚ
  counts_by_year : Json
deriving DecidableEq

/-- The four values `get_journal_metadata` can hand back: the
`HIJACKED_ISSN` sentinel, the `ERROR_STATE` sentinel, Python `None`
(the function's "not found" outcome: non-200 status, zero matches, or a
name mismatch), or the metadata dict. -/
inductive JMOutcome where
  | hijacked
  | errorState
  | notFound
  | found (rec : JournalRecord)
deriving DecidableEq

/-- Inputs of one `get_journal_metadata` call: the two denylist files
(`none` = unreadable), the identifier, the flag, and the responses the
transport would give to the three possible queries (sources lookup,
recent-works-for-authors lookup, recent-works-for-retractions lookup). -/
structure JMInput where
  issnLines : Option (List String)
  titleLines : Option (List String)
  id : String
  isIssn : Bool
  sourcesResp : HttpResult
  authorsResp : HttpResult
  worksResp : HttpResult
deriving DecidableEq

/-- The set `\x7bline.strip() for line in file if line.strip()\x7d`. -/
def hijackedIssnSet (lines : List String) : List String :=
  (lines.map pyStrip).filter (fun s => s ≠ "")

/-- The set `\x7bline.strip().lower() for line in file if line.strip()\x7d`. -/
def hijackedTitleSet (lines : List String) : List String :=
  ((lines.map pyStrip).filter (fun s => s ≠ "")).map pyLower

/-- Affiliation extraction in `get_journal_authors`:
`institutions[0]['display_name'] if institutions and len(institutions[0]) else NOT_FOUND`. -/
def affiliationE : Json → Except Unit Json
  | .arr [] => .ok (.str NOT_FOUND)
  | .arr (e :: _) =>
    match e with
    | .obj eo =>
      if eo.isEmpty then .ok (.str NOT_FOUND)
      else
        match Json.lookup "display_name" eo with
        | some v => .ok v
        | none => .error ()
    | .arr el => if el.isEmpty then .ok (.str NOT_FOUND) else .error ()
    | .str s => if s = "" then .ok (.str NOT_FOUND) else .error ()
    | _ => .error ()
  | j => if j.truthy then .error () else .ok (.str NOT_FOUND)

/-- One entry of the author loop in `get_journal_authors`. -/
def authorEntryE (a : Json) : Except Unit Json := do
  let ao ← a.asObj
  let ad ← (Json.getD ao "author" (.obj [])).asObj
  let name := Json.getD ad "display_name" (.str NOT_FOUND)
  let orcid0 := Json.getD ad "orcid" (.str NOT_FOUND)
  let orcid := if orcid0 = .str "null" ∨ orcid0 = .null then Json.str NOT_FOUND else orcid0
  let aff ← affiliationE (Json.getD ao "institutions" (.arr []))
  .ok (.obj [("name", name), ("orcid", orcid), ("affiliation", aff)])

/-- Iterating `work.get('authorships', [])`. -/
def authorshipsE : Json → Except Unit (List Json)
  | .arr al => al.mapM authorEntryE
  | .obj [] => .ok []
  | .str "" => .ok []
  | _ => .error ()

/-- Model of `get_journal_authors`: one works query; every failure inside its own
`try` (and a non-200 status) degrades to `[]`. -/
def get_journal_authors (resp : HttpResult) : List Json :=
  match resp with
  | .exn => []
  | .ok st body =>
    if st = 200 then
      match body with
      | .obj bo =>
        match Json.getD bo "results" (.arr []) with
        | .arr works =>
          match works.mapM (fun w => do
              let wo ← w.asObj
              authorshipsE (Json.getD wo "authorships" (.arr []))) with
          | .ok lists => lists.flatten
          | .error () => []
        | .obj [] => []
        | .str "" => []
        | _ => []
      | _ => []
    else []

/-- The sum `sum(1 for w in works if w.get('is_retracted', False))`; a non-dict work
raises. -/
def worksRetractedE : List Json → Except Unit Nat
  | [] => .ok 0
  | w :: rest =>
    match w with
    | .obj wo =>
      match worksRetractedE rest with
      | .ok n =>
        .ok ((if (Json.getD wo "is_retracted" (.bool false)).truthy then 1 else 0) + n)
      | .error () => .error ()
    | _ => .error ()

/-- Pure count of retracted works in a sample (agrees with
`worksRetractedE` on lists of dicts). -/
def retractedCount (ws : List Json) : Nat :=
  ws.countP fun w =>
    match w with
    | .obj wo => (Json.getD wo "is_retracted" (.bool false)).truthy
    | _ => false

/-- The retraction rate the code computes over a sample:
`retracted / total if total > 0 else 0.0`. -/
def retractionRateOf (ws : List Json) : ℚ :=
  if 0 < ws.length then (retractedCount ws : ℚ) / (ws.length : ℚ) else 0

/-- The `fields_of_research` comprehension over `source.get('topics', [])`;
a non-dict topic raises. -/
def topicValueE : Json → Except Unit Json
  | .obj tp => .ok (Json.getD tp "display_name" (.str "Unknown"))
  | _ => .error ()

def fieldsOfResearchE (source : List (String × Json)) : Except Unit (List Json) :=
  match Json.getD source "topics" (.arr []) with
  | .arr l => l.mapM topicValueE
  | .obj [] => .ok []
  | .str "" => .ok []
  | _ => .error ()

/-- The secondary stage of `get_journal_metadata` once a usable source id is
in hand: the author roster query (absorbed by `get_journal_authors`) and the
200-work retraction sample query.  Yields the `authors_who_pulished...`
value, `retracted_papers_count` and `retraction_rate`. -/
def jmSecondary (aResp wResp : HttpResult) : Except Unit (Json × Nat × ℚ) :=
  let authors := Json.arr (get_journal_authors aResp)
  match wResp with
  | .exn => .error ()
  | .ok wst wbody =>
    if wst = 200 then
      match wbody with
      | .obj wbo =>
        match Json.getD wbo "results" (.arr []) with
        | .arr ws => (worksRetractedE ws).map fun rc => (authors, rc, retractionRateOf ws)
        | .obj [] => .ok (authors, 0, 0)
        | .str "" => .ok (authors, 0, 0)
        | _ => .error ()
      | _ => .error ()
    else .ok (authors, 0, 0)

/-- Assembling the returned dict (last block of `get_journal_metadata`);
a non-dict `summary_stats` raises. -/
def jmFinish (source : List (String × Json)) (titleJ : Json) (fors : List Json)
    (authorsInfo : Json) (rc : Nat) (rate : ℚ) : Except Unit JMOutcome :=
  match Json.getD source "summary_stats" (.obj []) with
  | .obj sso => .ok (.found {
      title := titleJ
      publisher := Json.getD source "display_name" (.str NOT_FOUND)
      homepage_url := Json.getD source "homepage_url" (.str "N/A")
      is_in_doaj := Json.getD source "is_in_doaj" (.bool false)
      is_open_access := Json.getD source "is_oa" (.bool false)
      authors_who_pulished_in_this_journal_info := authorsInfo
      country_code := Json.getD source "country_code" (.str NOT_FOUND)
      works_count := Json.getD source "works_count" (.num 0)
      cited_by_count := Json.getD source "cited_by_count" (.num 0)
      fields_of_research := fors
      is_indexed_in_scopus := Json.getD source "is_indexed_in_scopus" (.bool false)
      h_index := Json.getD sso "h_index" (.str NOT_FOUND)
      i10_index := Json.getD sso "i10_index" (.str NOT_FOUND)
      two_yr_mean_citedness := Json.getD sso "2yr_mean_citedness" (.str NOT_FOUND)
      host_organization_name := Json.getD source "host_organization_name" (.str NOT_FOUND)
      apc_prices := Json.getD source "apc_prices" (.str NOT_FOUND)
      retracted_papers_count := rc
      retraction_rate := rate
      counts_by_year := Json.getD source "counts_by_year" (.str NOT_FOUND) })
  | _ => .error ()

/-- Field extraction from the first matching source (lines 830-884), paired
with the number of secondary network requests it issues. -/
def jmFields (inp : JMInput) (source : List (String × Json)) (titleJ : Json) :
    Except Unit JMOutcome × Nat :=
  match fieldsOfResearchE source with
  | .error () => (.error (), 0)
  | .ok fors =>
    let sidJ := Json.getD source "id" (.str NOT_FOUND)
    if sidJ = .str NOT_FOUND then
      (jmFinish source titleJ fors (.str NOT_FOUND) 0 0, 0)
    else
      match sidJ with
      | .str _ =>
        match jmSecondary inp.authorsResp inp.worksResp with
        | .ok (authors, rc, rate) => (jmFinish source titleJ fors authors rc rate, 2)
        | .error () => (.error (), 2)
      | _ => (.error (), 0)

/-- The first-result handling: display-name extraction and the
case-insensitive name check for free-text queries (lines 827-829). -/
def jmSource (inp : JMInput) (source : List (String × Json)) :
    Except Unit JMOutcome × Nat :=
  let titleJ := Json.getD source "display_name" (.str NOT_FOUND)
  if inp.isIssn then jmFields inp source titleJ
  else
    match titleJ with
    | .str t =>
      if pyUpper t ≠ pyUpper inp.id then (.ok .notFound, 0)
      else jmFields inp source titleJ
    | _ => (.error (), 0)

/-- Parsing the sources response body: `data['meta']['count']`, the zero-match
check and `data['results'][0]` (lines 824-826). -/
def jmParse (inp : JMInput) (body : Json) : Except Unit JMOutcome × Nat :=
  match body with
  | .obj bo =>
    match Json.lookup "meta" bo with
    | some (.obj mo) =>
      match Json.lookup "count" mo with
      | some (.num c) =>
        if 0 < c then
          match Json.lookup "results" bo with
          | some (.arr (.obj source :: _)) => jmSource inp source
          | _ => (.error (), 0)
        else (.ok .notFound, 0)
      | some (.bool b) =>
        if b then
          match Json.lookup "results" bo with
          | some (.arr (.obj source :: _)) => jmSource inp source
          | _ => (.error (), 0)
        else (.ok .notFound, 0)
      | _ => (.error (), 0)
    | _ => (.error (), 0)
  | _ => (.error (), 0)

/-- The network stage of `get_journal_metadata`: one sources request; a
transport exception or any exception while extracting yields `ERROR_STATE`;
a non-200 status yields `None`.  The returned number counts every network
request issued. -/
def jmNet (inp : JMInput) : JMOutcome × Nat :=
  match inp.sourcesResp with
  | .exn => (.errorState, 1)
  | .ok st body =>
    if st = 200 then
      match jmParse inp body with
      | (.ok out, n) => (out, 1 + n)
      | (.error (), n) => (.errorState, 1 + n)
    else (.notFound, 1)

/-- Model of `get_journal_metadata(id, is_issn)`: the hijacked-denylist gate (a file
read failure is non-fatal) followed by the network stage.  Returns the
outcome and how many network requests were issued. -/
def get_journal_metadata (inp : JMInput) : JMOutcome × Nat :=
  if inp.isIssn then
    match inp.issnLines with
    | some lines =>
      if inp.id ∈ hijackedIssnSet lines then (.hijacked, 0) else jmNet inp
    | none => jmNet inp
  else
    match inp.titleLines with
    | some lines =>
      if pyLower inp.id ∈ hijackedTitleSet lines then (.hijacked, 0) else jmNet inp
    | none => jmNet inp

/-! ### Paper Aggregator (`get_paper_metadata_v2`,
`get_author_metadata_for_paper`) -/

/-- Affiliation extraction in `get_author_metadata_for_paper`:
`institutions[0].get('display_name', NOT_FOUND)` behind the
`is None or len == 0` guard. -/
def paperAffE : Json → Except Unit Json
  | .null => .ok (.str NOT_FOUND)
  | .arr [] => .ok (.str NOT_FOUND)
  | .arr (e :: _) => (e.asObj).map fun eo => Json.getD eo "display_name" (.str NOT_FOUND)
  | .str "" => .ok (.str NOT_FOUND)
  | .obj [] => .ok (.str NOT_FOUND)
  | _ => .error ()

/-- One entry of the author loop in `get_author_metadata_for_paper`.
ORCID absent, `None` or the literal string "null" means `has_orcid = False`. -/
def paperAuthorE (a : Json) : Except Unit Json := do
  let ao ← a.asObj
  let ad ← (Json.getD ao "author" (.obj [])).asObj
  let name := Json.getD ad "display_name" (.str NOT_FOUND)
  let hasOrcid : Bool :=
    match Json.lookup "orcid" ad with
    | none => false
    | some .null => false
    | some (.str "null") => false
    | some _ => true
  let aff ← paperAffE (Json.getD ao "institutions" (.arr []))
  .ok (.obj [("name", name), ("has_orcid", .bool hasOrcid), ("affiliation", aff),
             ("is_corresponding", Json.getD ao "is_corresponding" (.bool false)),
             ("author_position", Json.getD ao "author_position" (.str NOT_FOUND))])

/-- The `authorships` handling of `get_author_metadata_for_paper`:
`None` or an empty collection yields the `NOT_FOUND` sentinel. -/
def authorMetaE : Json → Except Unit Json
  | .null => .ok (.str NOT_FOUND)
  | .arr [] => .ok (.str NOT_FOUND)
  | .arr al => (al.mapM paperAuthorE).map Json.arr
  | .str "" => .ok (.str NOT_FOUND)
  | .obj [] => .ok (.str NOT_FOUND)
  | _ => .error ()

/-- Model of `get_author_metadata_for_paper`: any exception is caught and becomes the
`ERROR_STATE` string. -/
def get_author_metadata_for_paper (paper : List (String × Json)) : Json :=
  match authorMetaE (Json.getD paper "authorships" (.arr [])) with
  | .ok j => j
  | .error () => .str ERROR_STATE

/-- Canonical paper bundle: the dict built by `get_paper_metadata_v2`.
`journal_metadata` is `none` when the nested `get_journal_metadata` call was
skipped (Python `None`), otherwise the nested call's outcome. -/
structure PaperRecord where
  title : Json
  publication_year : Json
  cited_by_count : Json
  years_since_publication : Json
  total_paper_citation_count : Json
  author_metadata : Json
  author_count : Json
  is_in_doaj : Json
  publisher : Json
  open_access : Json
  concepts : Json
  language : Json
  doi : Json
  locations_count : Json
  locations : Json
  is_retracted : Json
  journal_metadata : Option JMOutcome
  grants : Json
  referenced_works_count : Json
  related_works : Json
  sustainable_development_goals : Json
  counts_by_year : Json
  publication_date : Json
  created_date : Json
deriving DecidableEq

/-- Outcomes of `get_paper_metadata_v2`: `ERROR_STATE`, `NOT_FOUND`, or the dict. -/
inductive PMOutcome where
  | errorState
  | notFound
  | found (rec : PaperRecord)
deriving DecidableEq

/-- Inputs of one `get_paper_metadata_v2` call: the works response, the
current wall-clock year, and the nested Journal Aggregator as an oracle
(it never lets an exception escape, so a plain function is faithful). -/
structure PMInput where
  resp : HttpResult
  currentYear : Int
  jm : Json → Bool → JMOutcome

/-- The location scan (lines 951-955): first location whose `source` value
is truthy; a non-dict location raises. -/
def pmScanLocations : List Json → Except Unit (Option (List (String × Json)))
  | [] => .ok none
  | l :: rest =>
    match l with
    | .obj lo =>
      if (Json.getD lo "source" .null).truthy then .ok (some lo)
      else pmScanLocations rest
    | _ => .error ()

/-- Test `locations_count != 0` (Python `!=` against the int 0; `False == 0`). -/
def locCountNonzero : Json → Bool
  | .num n => n ≠ 0
  | .bool b => b
  | _ => true

/-- The per-location field tuple extracted at lines 971-977 and 988-992
(`is_in_doaj`, `publisher`, `open_access`, source id, linearized ISSN).
The computed `source.get('is_in_doaj', ...)` of line 975 is evaluated but
discarded exactly as in the source, so the first component stays the
`NOT_FOUND` sentinel. -/
def pmLocFields : Option (List (String × Json)) →
    Except Unit (Json × Json × Json × Json × Json)
  | some lo =>
    match Json.getD lo "source" (.obj []) with
    | .obj src =>
      .ok (Json.str NOT_FOUND,
           Json.getD src "display_name" (.str NOT_FOUND),
           Json.getD lo "is_oa" (.str NOT_FOUND),
           Json.getD src "id" .null,
           Json.getD src "issn_l" .null)
    | _ => .error ()
  | none =>
    .ok (Json.str NOT_FOUND, Json.str NOT_FOUND, Json.str NOT_FOUND,
         Json.str NOT_FOUND, Json.str NOT_FOUND)

/-- Assembly of the returned dict of `get_paper_metadata_v2`
(lines 1010-1035). -/
def pmRecord (inp : PMInput) (po : List (String × Json))
    (fields : Json × Json × Json × Json × Json) : PaperRecord :=
  let (is_in_doaj, publisher, open_access, jsid, jissn) := fields
  let publication_year := Json.getD po "publication_year" (.str NOT_FOUND)
  let cited := Json.getD po "cited_by_count" (.str NOT_FOUND)
  let author_metadata := get_author_metadata_for_paper po
  { title := Json.getD po "title" (.str NOT_FOUND)
    publication_year := publication_year
    cited_by_count := cited
    years_since_publication :=
      match publication_year with
      | .num y => .num (max 1 (inp.currentYear - y))
      | .bool b => .num (max 1 (inp.currentYear - (if b then 1 else 0)))
      | _ => .str NOT_FOUND
    total_paper_citation_count := cited
    author_metadata := author_metadata
    author_count :=
      match author_metadata with
      | .arr al => .num al.length
      | _ => .str NOT_FOUND
    is_in_doaj := is_in_doaj
    publisher := publisher
    open_access := open_access
    concepts := Json.getD po "concepts" (.str NOT_FOUND)
    language := Json.getD po "language" (.str NOT_FOUND)
    doi := Json.getD po "doi" (.str NOT_FOUND)
    locations_count := Json.getD po "locations_count" (.num 0)
    locations := Json.getD po "locations" (.arr [])
    is_retracted := Json.getD po "is_retracted" (.bool false)
    journal_metadata :=
      if jsid.truthy then
        some (if jissn.truthy then inp.jm jissn true else inp.jm jsid false)
      else none
    grants := Json.getD po "grants" (.str NOT_FOUND)
    referenced_works_count := Json.getD po "referenced_works_count" (.str NOT_FOUND)
    related_works := Json.getD po "related_works" (.str NOT_FOUND)
    sustainable_development_goals := Json.getD po "sustainable_development_goals" (.str NOT_FOUND)
    counts_by_year := Json.getD po "counts_by_year" (.str NOT_FOUND)
    publication_date := Json.getD po "publication_date" (.str NOT_FOUND)
    created_date := Json.getD po "created_date" (.str NOT_FOUND) }

/-- The guarded location scan (lines 947-955): only entered when
`locations_count != 0`. -/
def pmLocScan (po : List (String × Json)) :
    Except Unit (Option (List (String × Json))) :=
  if locCountNonzero (Json.getD po "locations_count" (.num 0)) then
    match Json.getD po "locations" (.arr []) with
    | .arr l => pmScanLocations l
    | .obj [] => .ok none
    | .str "" => .ok none
    | _ => .error ()
  else .ok none

/-- Field extraction and dict assembly from the most relevant result
(lines 947-1035). -/
def pmBuild (inp : PMInput) (po : List (String × Json)) : Except Unit PMOutcome :=
  match pmLocScan po with
  | .error () => .error ()
  | .ok locData =>
    match pmLocFields locData with
    | .error () => .error ()
    | .ok fields => .ok (.found (pmRecord inp po fields))

/-- Body handling of `get_paper_metadata_v2`: `results` extraction, the
zero-match check, and the jump to the most relevant (first) result. -/
def pmCore (inp : PMInput) (body : Json) : Except Unit PMOutcome :=
  match body with
  | .obj bo =>
    match Json.getD bo "results" (.arr []) with
    | .null => .ok .notFound
    | .arr [] => .ok .notFound
    | .arr (.obj po :: _) => pmBuild inp po
    | .arr (_ :: _) => .error ()
    | .str "" => .ok .notFound
    | .obj [] => .ok .notFound
    | _ => .error ()
  | _ => .error ()

/-- Model of `get_paper_metadata_v2(paper_input, input_type)`: one works request;
non-200 yields `NOT_FOUND`, any exception yields `ERROR_STATE`. -/
def get_paper_metadata_v2 (inp : PMInput) : PMOutcome :=
  match inp.resp with
  | .exn => .errorState
  | .ok st body =>
    if st = 200 then
      match pmCore inp body with
      | .ok out => out
      | .error () => .errorState
    else .notFound

/-! ### Assessment surface (`get_journal_assessment`,
`get_research_paper_assessment`) -/

/-- What a provider lookup can hand to the assessment surface: the
`NOT_FOUND` constant, the `ERROR_STATE` constant, Python `None`, a sized
collection (list/dict/str), or a value without `__len__`. -/
inductive MetaFetch where
  | notFoundS
  | errorS
  | pyNone
  | collection (n : Nat)
  | scalar
deriving DecidableEq

/-- A lookup result the guard rejects: a sentinel, `None`, or empty. -/
def metaBad : MetaFetch → Bool
  | .notFoundS => true
  | .errorS => true
  | .pyNone => true
  | .collection n => n == 0
  | .scalar => false

/-- Test `hasattr(x, "__len__") and len(x) == 0`. -/
def hasLenZero : MetaFetch → Bool
  | .collection n => n == 0
  | _ => false

/-- Outcome of the assessment surface: the `NOT_FOUND` sentinel, or the LLM
assessment that the happy path computes. -/
inductive AssessOutcome (α : Type) where
  | notFoundS
  | llm (a : α)
deriving DecidableEq

/-- Model of `get_journal_assessment`: the verbatim guard of lines 406-416, then the
LLM call (abstracted as its result `llmResult`). -/
def get_journal_assessment {α : Type} (oa cr : MetaFetch) (llmResult : α) :
    AssessOutcome α :=
  if oa = .notFoundS || cr = .notFoundS || oa = .errorS || cr = .errorS
     || oa = .pyNone || cr = .pyNone || hasLenZero oa || hasLenZero cr
  then .notFoundS
  else .llm llmResult

/-- Model of `get_research_paper_assessment`: the identical guard of lines 600-610. -/
def get_research_paper_assessment {α : Type} (oa cr : MetaFetch) (llmResult : α) :
    AssessOutcome α :=
  if oa = .notFoundS || cr = .notFoundS || oa = .errorS || cr = .errorS
     || oa = .pyNone || cr = .pyNone || hasLenZero oa || hasLenZero cr
  then .notFoundS
  else .llm llmResult

/-! ### Response Parser (`parse_llm_paper_confidence_output`) -/

/-- Value of a run of decimal digits. -/
def digitsToNat (l : List Char) : Nat :=
  l.foldl (fun a c => a * 10 + (c.toNat - '0'.toNat)) 0

/-- Leftmost-position regex search: try the matcher at every suffix, left
to right (`re.search`). -/
def searchO {α : Type} (m : List Char → Option α) : List Char → Option α
  | [] => m []
  | c :: cs =>
    match m (c :: cs) with
    | some a => some a
    | none => searchO m cs

/-- Drop `pat` from the front of `l` if it is there. -/
def dropLit (pat l : List Char) : Option (List Char) :=
  match pat, l with
  | [], rest => some rest
  | _ :: _, [] => none
  | c :: cs, d :: ds => if c = d then dropLit cs ds else none

/-- One anchored attempt of `Confidence Score:\s*(\d+)`: the literal label,
greedy whitespace, then a non-empty maximal digit run. -/
def scoreMatcher (l : List Char) : Option Nat :=
  match dropLit "Confidence Score:".toList l with
  | none => none
  | some rest =>
    let ds := (rest.dropWhile isPyWs).takeWhile Char.isDigit
    if ds.isEmpty then none else some (digitsToNat ds)

/-- One anchored attempt of `Rationale\s*\(HTML\):\s*(.*)` with `re.DOTALL`:
the group swallows the remainder of the input and is then `strip`ped. -/
def rationaleMatcher (l : List Char) : Option String :=
  match dropLit "Rationale".toList l with
  | none => none
  | some r1 =>
    match dropLit "(HTML):".toList (r1.dropWhile isPyWs) with
    | none => none
    | some r2 => some (String.mk (stripChars r2))

/-- Model of `parse_llm_paper_confidence_output`: score from the first match of
`Confidence Score:\s*(\d+)`, rationale from the first match of
`Rationale\s*\(HTML\):\s*(.*)` (empty string when absent). -/
def parse_llm_paper_confidence_output (s : String) : Option Nat × String :=
  (searchO scoreMatcher s.toList,
   (searchO rationaleMatcher s.toList).getD "")

/-! ### Claim C10: assessment surface guard -/

/-- Claim C10: both assessment functions attempt the LLM assessment only
when both provider lookups return non-empty, non-sentinel data; whenever
either lookup yields the `NOT_FOUND` sentinel, the `ERROR_STATE` sentinel,
`None`, or an empty collection, they return the `NOT_FOUND` sentinel — in
particular a provider transport error (`ERROR_STATE`) is surfaced as
`NOT_FOUND`, never as an error outcome. -/
theorem assessment_surface_guard :
    ∀ (α : Type) (oa cr : MetaFetch) (a : α),
      get_journal_assessment oa cr a =
        (if metaBad oa || metaBad cr then AssessOutcome.notFoundS else .llm a) ∧
      get_research_paper_assessment oa cr a =
        (if metaBad oa || metaBad cr then AssessOutcome.notFoundS else .llm a) ∧
      get_journal_assessment MetaFetch.errorS cr a = .notFoundS ∧
      get_research_paper_assessment oa MetaFetch.errorS a = .notFoundS := by
  intro α oa cr a
  refine ⟨?_, ?_, ?_, ?_⟩ <;>
    cases oa <;> cases cr <;>
      simp [get_journal_assessment, get_research_paper_assessment, metaBad, hasLenZero]

/-! ### Claim C1: hijacked-denylist short circuit -/

/-- Claim C1: when the identifier is on the relevant hijacked denylist (the
ISSN file for `is_issn = True`, the case-folded title file otherwise),
`get_journal_metadata` returns the `HIJACKED_ISSN` sentinel having issued
zero network requests. -/
theorem hijack_short_circuit :
    ∀ (inp : JMInput) (lines : List String),
      (inp.isIssn = true → inp.issnLines = some lines →
        inp.id ∈ hijackedIssnSet lines →
        get_journal_metadata inp = (.hijacked, 0)) ∧
      (inp.isIssn = false → inp.titleLines = some lines →
        pyLower inp.id ∈ hijackedTitleSet lines →
        get_journal_metadata inp = (.hijacked, 0)) := by
  intro inp lines
  constructor
  · intro hIssn hFile hMem
    simp [get_journal_metadata, hIssn, hFile, hMem]
  · intro hIssn hFile hMem
    simp [get_journal_metadata, hIssn, hFile, hMem]

/-- Concrete input for the ISSN arm of C1. -/
def hijackIssnInput : JMInput :=
  { issnLines := some ["2313-1799", " 1234-5678 "]
    titleLines := none
    id := "1234-5678"
    isIssn := true
    sourcesResp := .exn
    authorsResp := .exn
    worksResp := .exn }

/-- Concrete input for the title arm of C1. -/
def hijackTitleInput : JMInput :=
  { issnLines := none
    titleLines := some ["Journal of Modern Fakes"]
    id := "JOURNAL of Modern FAKES"
    isIssn := false
    sourcesResp := .exn
    authorsResp := .exn
    worksResp := .exn }

theorem hijack_short_circuit_witness :
    (hijackIssnInput.isIssn = true ∧
     hijackIssnInput.issnLines = some ["2313-1799", " 1234-5678 "] ∧
     hijackIssnInput.id ∈ hijackedIssnSet ["2313-1799", " 1234-5678 "] ∧
     get_journal_metadata hijackIssnInput = (.hijacked, 0)) ∧
    (hijackTitleInput.isIssn = false ∧
     hijackTitleInput.titleLines = some ["Journal of Modern Fakes"] ∧
     pyLower hijackTitleInput.id ∈ hijackedTitleSet ["Journal of Modern Fakes"] ∧
     get_journal_metadata hijackTitleInput = (.hijacked, 0)) := by
  refine ⟨⟨rfl, rfl, by decide, ?_⟩, ⟨rfl, rfl, by decide, ?_⟩⟩
  · exact (hijack_short_circuit hijackIssnInput ["2313-1799", " 1234-5678 "]).1
      rfl rfl (by decide)
  · exact (hijack_short_circuit hijackTitleInput ["Journal of Modern Fakes"]).2
      rfl rfl (by decide)

/-! ### Claim C2: case-insensitive name check for free-text queries -/

/-- Claim C2: on a free-text name query (`is_issn = False`) whose most
relevant result's display title differs case-insensitively from the input,
`get_journal_metadata` returns its "not found" outcome (Python `None`,
the `NotFound` sentinel of the spec's taxonomy) and never the metadata
dict. -/
theorem name_mismatch_yields_notFound :
    ∀ (inp : JMInput) (bo mo source : List (String × Json))
      (rest : List Json) (c : Int) (t : String),
      inp.isIssn = false →
      (∀ lines, inp.titleLines = some lines →
        pyLower inp.id ∉ hijackedTitleSet lines) →
      inp.sourcesResp = .ok 200 (.obj bo) →
      Json.lookup "meta" bo = some (.obj mo) →
      Json.lookup "count" mo = some (.num c) →
      0 < c →
      Json.lookup "results" bo = some (.arr (.obj source :: rest)) →
      Json.getD source "display_name" (.str NOT_FOUND) = .str t →
      pyUpper t ≠ pyUpper inp.id →
      get_journal_metadata inp = (.notFound, 1) ∧
      ∀ rec n, get_journal_metadata inp ≠ (.found rec, n) := by
  intro inp bo mo source rest c t hIssn hDeny hResp hMeta hCount hc hResults hTitle hMis
  have hMain : get_journal_metadata inp = (.notFound, 1) := by
    have hNet : jmNet inp = (.notFound, 1) := by
      have hSrc : jmSource inp source = (.ok .notFound, 0) := by
        simp [jmSource, hTitle, hIssn, hMis]
      simp [jmNet, hResp, jmParse, hMeta, hCount, hc, hResults, hSrc]
    cases hTL : inp.titleLines with
    | none => simp [get_journal_metadata, hIssn, hTL, hNet]
    | some lines =>
      simp [get_journal_metadata, hIssn, hTL, hDeny lines hTL, hNet]
  exact ⟨hMain, by simp [hMain]⟩

/-- Concrete input for the C2 witness: querying for "Journal A" while the
top search hit is titled "Journal B". -/
def nameMismatchInput : JMInput :=
  { issnLines := none
    titleLines := some []
    id := "Journal A"
    isIssn := false
    sourcesResp := .ok 200 (.obj
      [("meta", .obj [("count", .num 1)]),
       ("results", .arr [.obj [("display_name", .str "Journal B")]])])
    authorsResp := .exn
    worksResp := .exn }

theorem name_mismatch_yields_notFound_witness :
    pyUpper "Journal B" ≠ pyUpper nameMismatchInput.id ∧
    get_journal_metadata nameMismatchInput = (.notFound, 1) := by
  refine ⟨by decide, ?_⟩
  exact (name_mismatch_yields_notFound nameMismatchInput
    [("meta", .obj [("count", .num 1)]),
     ("results", .arr [.obj [("display_name", .str "Journal B")]])]
    [("count", .num 1)]
    [("display_name", .str "Journal B")]
    [] 1 "Journal B"
    rfl (by intro lines h; cases h; decide) rfl (by decide) (by decide)
    (by decide) (by decide) (by decide) (by decide)).1

/-! ### Claim C8: years_since_publication clamp -/

/-- Every `found` paper record comes out of `pmRecord`. -/
theorem pm_found_record :
    ∀ (inp : PMInput) (rec : PaperRecord),
      get_paper_metadata_v2 inp = .found rec →
      ∃ po fields, rec = pmRecord inp po fields := by
  intro inp rec h
  unfold get_paper_metadata_v2 at h
  split at h
  · exact absurd h (by simp)
  · split at h
    · rename_i heq
      split at h
      · rename_i out hcore
        subst h
        unfold pmCore at hcore
        split at hcore
        · split at hcore
          · exact absurd hcore (by simp)
          · exact absurd hcore (by simp)
          · rename_i po tail hres
            unfold pmBuild at hcore
            split at hcore
            · exact absurd hcore (by simp)
            · split at hcore
              · exact absurd hcore (by simp)
              · rename_i locData hscan fields hfields
                refine ⟨po, fields, ?_⟩
                have := hcore
                simp at this
                exact this.symm
          · exact absurd hcore (by simp)
          · exact absurd hcore (by simp)
          · exact absurd hcore (by simp)
          · exact absurd hcore (by simp)
        · exact absurd hcore (by simp)
      · exact absurd h (by simp)
    · exact absurd h (by simp)

/-- Claim C8: for every resolved paper, integer `publication_year` gives
`years_since_publication = max(1, current_year - publication_year)` (so a
current-year paper gets 1, never 0 or a negative), and a non-integer
`publication_year` gives the `NOT_FOUND` sentinel.  Python's
`isinstance(publication_year, int)` accepts booleans (`bool` subclasses
`int`, `True` counts as 1 and `False` as 0), so a boolean
`publication_year` is an integer for line 963 and is clamped, not
sentinelled; only the remaining shapes yield the sentinel. -/
theorem years_since_publication_clamped :
    ∀ (inp : PMInput) (rec : PaperRecord),
      get_paper_metadata_v2 inp = .found rec →
      (∀ y : Int, rec.publication_year = .num y →
        rec.years_since_publication = .num (max 1 (inp.currentYear - y)) ∧
        (y = inp.currentYear → rec.years_since_publication = .num 1)) ∧
      (∀ b : Bool, rec.publication_year = .bool b →
        rec.years_since_publication =
          .num (max 1 (inp.currentYear - (if b then 1 else 0)))) ∧
      ((∀ y : Int, rec.publication_year ≠ .num y) →
        (∀ b : Bool, rec.publication_year ≠ .bool b) →
        rec.years_since_publication = .str NOT_FOUND) := by
  intro inp rec h
  obtain ⟨po, fields, hrec⟩ := pm_found_record inp rec h
  obtain ⟨f1, f2, f3, f4, f5⟩ := fields
  subst hrec
  refine ⟨?_, ?_, ?_⟩
  · intro y hy
    simp only [pmRecord] at hy ⊢
    rw [hy]
    refine ⟨rfl, ?_⟩
    intro hcy
    subst hcy
    simp
  · intro b hb
    simp only [pmRecord] at hb ⊢
    rw [hb]
  · intro hnum hbool
    simp only [pmRecord] at hnum hbool
    cases hpy : Json.getD po "publication_year" (.str NOT_FOUND) with
    | num y => exact absurd hpy (hnum y)
    | bool b => exact absurd hpy (hbool b)
    | null => simp [pmRecord, hpy]
    | str s => simp [pmRecord, hpy]
    | arr l => simp [pmRecord, hpy]
    | obj o => simp [pmRecord, hpy]

/-- Concrete C8 witness input: a paper published in the current year. -/
def currentYearPaperInput : PMInput :=
  { resp := .ok 200 (.obj [("results", .arr
      [.obj [("publication_year", .num 2026), ("locations_count", .num 0)]])])
    currentYear := 2026
    jm := fun _ _ => .notFound }

/-- The record `currentYearPaperInput` resolves to. -/
def currentYearPaperRecord : PaperRecord :=
  { title := .str NOT_FOUND
    publication_year := .num 2026
    cited_by_count := .str NOT_FOUND
    years_since_publication := .num 1
    total_paper_citation_count := .str NOT_FOUND
    author_metadata := .str NOT_FOUND
    author_count := .str NOT_FOUND
    is_in_doaj := .str NOT_FOUND
    publisher := .str NOT_FOUND
    open_access := .str NOT_FOUND
    concepts := .str NOT_FOUND
    language := .str NOT_FOUND
    doi := .str NOT_FOUND
    locations_count := .num 0
    locations := .arr []
    is_retracted := .bool false
    journal_metadata := some .notFound
    grants := .str NOT_FOUND
    referenced_works_count := .str NOT_FOUND
    related_works := .str NOT_FOUND
    sustainable_development_goals := .str NOT_FOUND
    counts_by_year := .str NOT_FOUND
    publication_date := .str NOT_FOUND
    created_date := .str NOT_FOUND }

/-- Concrete input with a boolean `publication_year` (Python treats `True`
as the integer 1 at line 963). -/
def boolYearPaperInput : PMInput :=
  { resp := .ok 200 (.obj [("results", .arr
      [.obj [("publication_year", .bool true), ("locations_count", .num 0)]])])
    currentYear := 2026
    jm := fun _ _ => .notFound }

/-- The record `boolYearPaperInput` resolves to. -/
def boolYearPaperRecord : PaperRecord :=
  { currentYearPaperRecord with
    publication_year := .bool true
    years_since_publication := .num 2025 }

theorem years_since_publication_clamped_witness :
    (get_paper_metadata_v2 currentYearPaperInput = .found currentYearPaperRecord ∧
     currentYearPaperRecord.publication_year = .num 2026 ∧
     currentYearPaperRecord.years_since_publication = .num 1) ∧
    (get_paper_metadata_v2 boolYearPaperInput = .found boolYearPaperRecord ∧
     boolYearPaperRecord.publication_year = .bool true ∧
     boolYearPaperRecord.years_since_publication = .num 2025) := by
  have h : get_paper_metadata_v2 currentYearPaperInput = .found currentYearPaperRecord := by
    decide
  have hb : get_paper_metadata_v2 boolYearPaperInput = .found boolYearPaperRecord := by
    decide
  refine ⟨⟨h, rfl, ?_⟩, ⟨hb, rfl, ?_⟩⟩
  · exact ((years_since_publication_clamped currentYearPaperInput
      currentYearPaperRecord h).1 2026 rfl).2 rfl
  · have := (years_since_publication_clamped boolYearPaperInput
      boolYearPaperRecord hb).2.1 true rfl
    simpa using this

/-! ### Claim C4: primary-location enrichment fields -/

def pmFoundIsInDoaj : PMOutcome → Option Json
  | .found r => some r.is_in_doaj
  | _ => none

def pmFoundPublisher : PMOutcome → Option Json
  | .found r => some r.publisher
  | _ => none

def pmFoundOpenAccess : PMOutcome → Option Json
  | .found r => some r.open_access
  | _ => none

/-- C4 failing input: one location carrying a non-null source whose
`is_in_doaj` is `True`. -/
def doajSlipInput : PMInput :=
  { resp := .ok 200 (.obj [("results", .arr [.obj
      [("locations_count", .num 1),
       ("locations", .arr [.obj
         [("source", .obj [("is_in_doaj", .bool true),
                           ("display_name", .str "Good Journal")]),
          ("is_oa", .bool true)]])]])])
    currentYear := 2026
    jm := fun _ _ => .notFound }

/-- Claim C4 evidence (code bug): on a paper whose first indexed location
carries a non-null source with `is_in_doaj = True`, the returned record's
`publisher` and `open_access` are populated from that location, but
`is_in_doaj` stays the `NOT_FOUND` sentinel: line 975 computes
`location_data.get('source', {}).get('is_in_doaj', NOT_FOUND)` and drops
the result instead of assigning it. -/
theorem paper_is_in_doaj_dropped :
    pmFoundIsInDoaj (get_paper_metadata_v2 doajSlipInput) = some (.str NOT_FOUND) ∧
    pmFoundPublisher (get_paper_metadata_v2 doajSlipInput) = some (.str "Good Journal") ∧
    pmFoundOpenAccess (get_paper_metadata_v2 doajSlipInput) = some (.bool true) := by
  decide


/-! ### Claim C3: retraction rate over the fetched sample -/

theorem worksRetractedE_ok :
    ∀ (ws : List Json) (n : Nat),
      worksRetractedE ws = .ok n → n = retractedCount ws := by
  intro ws
  induction ws with
  | nil =>
    intro n h
    simp [worksRetractedE] at h
    simp [retractedCount, h.symm]
  | cons w rest ih =>
    intro n h
    unfold worksRetractedE at h
    split at h
    · rename_i wo
      split at h
      · rename_i m hm
        have hm' := ih m hm
        simp only [Except.ok.injEq] at h
        subst hm'
        simp [retractedCount, List.countP_cons] at h ⊢
        omega
      · exact absurd h (by simp)
    · exact absurd h (by simp)

theorem retractionRateOf_bounds :
    ∀ ws : List Json, 0 ≤ retractionRateOf ws ∧ retractionRateOf ws ≤ 1 := by
  intro ws
  unfold retractionRateOf
  split
  · rename_i h
    constructor
    · positivity
    · rw [div_le_one (by exact_mod_cast h)]
      have hc : retractedCount ws ≤ ws.length := List.countP_le_length _
      exact_mod_cast hc
  · simp

theorem jmFinish_found :
    ∀ source titleJ fors authorsInfo rc rate (rec : JournalRecord),
      jmFinish source titleJ fors authorsInfo rc rate = .ok (.found rec) →
      rec.retracted_papers_count = rc ∧ rec.retraction_rate = rate := by
  intro source titleJ fors authorsInfo rc rate rec h
  unfold jmFinish at h
  split at h
  · simp at h
    subst h
    exact ⟨rfl, rfl⟩
  · exact absurd h (by simp)

theorem jmSecondary_cases :
    ∀ a w au rc rate,
      jmSecondary a w = .ok (au, rc, rate) →
      (rc = 0 ∧ rate = 0) ∨
      (∃ ws, rc = retractedCount ws ∧ rate = retractionRateOf ws) := by
  intro a w au rc rate h
  unfold jmSecondary at h
  split at h
  · exact absurd h (by simp)
  · split at h
    · split at h
      · split at h
        · rename_i ws hres
          cases hw : worksRetractedE ws with
          | error e =>
            rw [hw] at h
            exact absurd h (by simp [Except.map])
          | ok m =>
            rw [hw] at h
            simp only [Except.map, Except.ok.injEq, Prod.mk.injEq] at h
            obtain ⟨-, h2, h3⟩ := h
            subst h2
            subst h3
            exact Or.inr ⟨ws, worksRetractedE_ok ws m hw, rfl⟩
        · simp only [Except.ok.injEq, Prod.mk.injEq] at h
          exact Or.inl ⟨h.2.1.symm, h.2.2.symm⟩
        · simp only [Except.ok.injEq, Prod.mk.injEq] at h
          exact Or.inl ⟨h.2.1.symm, h.2.2.symm⟩
        · exact absurd h (by simp)
      · exact absurd h (by simp)
    · simp only [Except.ok.injEq, Prod.mk.injEq] at h
      exact Or.inl ⟨h.2.1.symm, h.2.2.symm⟩

theorem jm_found_net :
    ∀ (inp : JMInput) (rec : JournalRecord) (n : Nat),
      get_journal_metadata inp = (.found rec, n) → jmNet inp = (.found rec, n) := by
  intro inp rec n h
  unfold get_journal_metadata at h
  split at h
  · split at h
    · split at h
      · exact absurd h (by simp)
      · exact h
    · exact h
  · split at h
    · split at h
      · exact absurd h (by simp)
      · exact h
    · exact h

theorem jmNet_found :
    ∀ (inp : JMInput) (rec : JournalRecord) (n : Nat),
      jmNet inp = (.found rec, n) →
      ∃ body m, inp.sourcesResp = .ok 200 body ∧
        jmParse inp body = (.ok (.found rec), m) ∧ n = 1 + m := by
  intro inp rec n h
  unfold jmNet at h
  split at h
  · exact absurd h (by simp)
  · rename_i st body hsr
    split at h
    · rename_i hst
      split at h
      · rename_i out m hp
        simp only [Prod.mk.injEq] at h
        refine ⟨body, m, ?_, ?_, h.2.symm⟩
        · rw [hsr, hst]
        · rw [hp, h.1]
      · exact absurd h (by simp)
    · exact absurd h (by simp)

theorem jmParse_found :
    ∀ (inp : JMInput) (body : Json) (rec : JournalRecord) (m : Nat),
      jmParse inp body = (.ok (.found rec), m) →
      ∃ source, jmSource inp source = (.ok (.found rec), m) := by
  intro inp body rec m h
  unfold jmParse at h
  split at h
  · split at h
    · split at h
      · split at h
        · split at h
          · exact ⟨_, h⟩
          · exact absurd h (by simp)
        · exact absurd h (by simp)
      · split at h
        · split at h
          · exact ⟨_, h⟩
          · exact absurd h (by simp)
        · exact absurd h (by simp)
      · exact absurd h (by simp)
    · exact absurd h (by simp)
  · exact absurd h (by simp)

theorem jmSource_found :
    ∀ (inp : JMInput) (source : List (String × Json)) (rec : JournalRecord) (m : Nat),
      jmSource inp source = (.ok (.found rec), m) →
      jmFields inp source (Json.getD source "display_name" (.str NOT_FOUND)) =
        (.ok (.found rec), m) := by
  intro inp source rec m h
  simp only [jmSource] at h
  split at h
  · exact h
  · split at h
    · rename_i t heq
      split at h
      · exact absurd h (by simp)
      · exact h
    · exact absurd h (by simp)

theorem jmFields_found :
    ∀ (inp : JMInput) (source : List (String × Json)) (titleJ : Json)
      (rec : JournalRecord) (m : Nat),
      jmFields inp source titleJ = (.ok (.found rec), m) →
      ∃ fors, fieldsOfResearchE source = .ok fors ∧
        ((m = 0 ∧ jmFinish source titleJ fors (.str NOT_FOUND) 0 0 = .ok (.found rec)) ∨
         (m = 2 ∧ ∃ au rc rate,
            jmSecondary inp.authorsResp inp.worksResp = .ok (au, rc, rate) ∧
            jmFinish source titleJ fors au rc rate = .ok (.found rec))) := by
  intro inp source titleJ rec m h
  simp only [jmFields] at h
  split at h
  · exact absurd h (by simp)
  · rename_i fors hfors
    split at h
    · simp only [Prod.mk.injEq] at h
      exact ⟨fors, hfors, Or.inl ⟨h.2.symm, h.1⟩⟩
    · split at h
      · split at h
        · rename_i au rc rate hsec
          simp only [Prod.mk.injEq] at h
          exact ⟨fors, hfors, Or.inr ⟨h.2.symm, au, rc, rate, hsec, h.1⟩⟩
        · exact absurd h (by simp)
      · exact absurd h (by simp)

/-- Master shape of every `found` journal outcome: either the secondary
stage was skipped (one request, zero retraction stats) or it ran
(three requests, stats from `jmSecondary`). -/
theorem jm_found_master :
    ∀ (inp : JMInput) (rec : JournalRecord) (n : Nat),
      get_journal_metadata inp = (.found rec, n) →
      ((rec.retracted_papers_count = 0 ∧ rec.retraction_rate = 0) ∧ n = 1) ∨
      ((∃ au, jmSecondary inp.authorsResp inp.worksResp =
          .ok (au, rec.retracted_papers_count, rec.retraction_rate)) ∧ n = 3) := by
  intro inp rec n h
  obtain ⟨body, m, hsr, hp, hn⟩ := jmNet_found inp rec n (jm_found_net inp rec n h)
  obtain ⟨source, hsrc⟩ := jmParse_found inp body rec m hp
  have hfld := jmSource_found inp source rec m hsrc
  obtain ⟨fors, hfors, hcase⟩ := jmFields_found inp source _ rec m hfld
  cases hcase with
  | inl hskip =>
    obtain ⟨hm, hfin⟩ := hskip
    obtain ⟨h1, h2⟩ := jmFinish_found _ _ _ _ _ _ _ hfin
    exact Or.inl ⟨⟨h1, h2⟩, by omega⟩
  | inr hsec =>
    obtain ⟨hm, au, rc, rate, hsecond, hfin⟩ := hsec
    obtain ⟨h1, h2⟩ := jmFinish_found _ _ _ _ _ _ _ hfin
    refine Or.inr ⟨⟨au, ?_⟩, by omega⟩
    rw [h1, h2]
    exact hsecond

theorem jmSecondary_sample :
    ∀ (a : HttpResult) (wbo : List (String × Json)) (ws : List Json) au rc rate,
      Json.getD wbo "results" (.arr []) = .arr ws →
      jmSecondary a (.ok 200 (.obj wbo)) = .ok (au, rc, rate) →
      rc = retractedCount ws ∧ rate = retractionRateOf ws := by
  intro a wbo ws au rc rate hres h
  unfold jmSecondary at h
  simp only [hres, reduceIte] at h
  cases hw : worksRetractedE ws with
  | error e =>
    rw [hw] at h
    exact absurd h (by simp [Except.map])
  | ok m =>
    rw [hw] at h
    simp only [Except.map, Except.ok.injEq, Prod.mk.injEq] at h
    obtain ⟨-, h2, h3⟩ := h
    subst h2
    subst h3
    exact ⟨worksRetractedE_ok ws m hw, rfl⟩

/-- Claim C3: whenever `get_journal_metadata` resolves a journal and
actually fetches the 200-work retraction sample (exactly the runs issuing
three network requests), `retraction_rate` is `retracted_papers_count`
divided by the number of sampled works when that number is positive and
`0.0` on an empty sample; for every resolved journal it lies in `[0, 1]`.
The rate is a function of the fetched sample alone — the population field
`works_count` does not occur in it. -/
theorem retraction_rate_spec :
    ∀ (inp : JMInput) (rec : JournalRecord) (n : Nat),
      (get_journal_metadata inp = (.found rec, n) →
        0 ≤ rec.retraction_rate ∧ rec.retraction_rate ≤ 1) ∧
      (∀ (wbo : List (String × Json)) (ws : List Json),
        inp.worksResp = .ok 200 (.obj wbo) →
        Json.getD wbo "results" (.arr []) = .arr ws →
        get_journal_metadata inp = (.found rec, 3) →
        rec.retracted_papers_count = retractedCount ws ∧
        rec.retraction_rate =
          (if 0 < ws.length then (retractedCount ws : ℚ) / (ws.length : ℚ) else 0) ∧
        (ws = [] → rec.retraction_rate = 0)) := by
  intro inp rec n
  constructor
  · intro h
    rcases jm_found_master inp rec n h with ⟨⟨-, h2⟩, -⟩ | ⟨⟨au, hsec⟩, -⟩
    · rw [h2]; norm_num
    · rcases jmSecondary_cases _ _ _ _ _ hsec with ⟨-, h2⟩ | ⟨ws, -, h2⟩
      · rw [h2]; norm_num
      · rw [h2]; exact retractionRateOf_bounds ws
  · intro wbo ws hw hres h
    rcases jm_found_master inp rec 3 h with ⟨-, h1⟩ | ⟨⟨au, hsec⟩, -⟩
    · exact absurd h1 (by omega)
    · rw [hw] at hsec
      obtain ⟨h1, h2⟩ := jmSecondary_sample inp.authorsResp wbo ws au _ _ hres hsec
      refine ⟨h1, ?_, ?_⟩
      · rw [h2]; rfl
      · intro hnil
        rw [h2, hnil]
        rfl

/-- C3 witness input: a journal with a usable source id whose works sample
has two works, one retracted. -/
def c3Input : JMInput :=
  { issnLines := some []
    titleLines := none
    id := "1234-5678"
    isIssn := true
    sourcesResp := .ok 200 (.obj
      [("meta", .obj [("count", .num 1)]),
       ("results", .arr [.obj [("display_name", .str "J"), ("id", .str "S1")]])])
    authorsResp := .ok 500 .null
    worksResp := .ok 200 (.obj [("results", .arr
      [.obj [("is_retracted", .bool true)], .obj []])]) }

def c3Ws : List Json := [.obj [("is_retracted", .bool true)], .obj []]

/-- The record `c3Input` resolves to: rate 1/2 over the two-work sample. -/
def c3Record : JournalRecord :=
  { title := .str "J"
    publisher := .str "J"
    homepage_url := .str "N/A"
    is_in_doaj := .bool false
    is_open_access := .bool false
    authors_who_pulished_in_this_journal_info := .arr []
    country_code := .str NOT_FOUND
    works_count := .num 0
    cited_by_count := .num 0
    fields_of_research := []
    is_indexed_in_scopus := .bool false
    h_index := .str NOT_FOUND
    i10_index := .str NOT_FOUND
    two_yr_mean_citedness := .str NOT_FOUND
    host_organization_name := .str NOT_FOUND
    apc_prices := .str NOT_FOUND
    retracted_papers_count := 1
    retraction_rate := (1 : ℚ) / 2
    counts_by_year := .str NOT_FOUND }

theorem retraction_rate_spec_witness :
    get_journal_metadata c3Input = (.found c3Record, 3) ∧
    c3Record.retracted_papers_count = retractedCount c3Ws ∧
    c3Record.retraction_rate =
      (if 0 < c3Ws.length then (retractedCount c3Ws : ℚ) / (c3Ws.length : ℚ) else 0) := by
  have hrate : retractionRateOf c3Ws = (1 : ℚ) / 2 := by
    have h1 : retractedCount c3Ws = 1 := by decide
    have h2 : c3Ws.length = 2 := rfl
    unfold retractionRateOf
    rw [h1, h2]
    norm_num
  have h0 : get_journal_metadata c3Input =
      (.found { c3Record with retraction_rate := retractionRateOf c3Ws }, 3) := rfl
  have h : get_journal_metadata c3Input = (.found c3Record, 3) := by
    rw [h0, hrate]
    rfl
  have hmain := (retraction_rate_spec c3Input c3Record 3).2
    [("results", .arr c3Ws)] c3Ws rfl rfl h
  exact ⟨h, hmain.1, hmain.2.1⟩

/-! ### Claim C9: response parser grammar -/

theorem dropLit_append :
    ∀ pat rest : List Char, dropLit pat (pat ++ rest) = some rest := by
  intro pat
  induction pat with
  | nil => intro rest; rfl
  | cons c cs ih => intro rest; simp [dropLit, ih]

theorem searchO_head {α : Type} (m : List Char → Option α) :
    ∀ (l : List Char) (a : α), m l = some a → searchO m l = some a := by
  intro l a h
  cases l with
  | nil => simpa [searchO] using h
  | cons c cs => simp [searchO, h]

theorem searchO_skip {α : Type} (m : List Char → Option α) :
    ∀ (pre rest : List Char),
      (∀ c ∈ pre, ∀ l', m (c :: l') = none) →
      searchO m (pre ++ rest) = searchO m rest := by
  intro pre
  induction pre with
  | nil => intro rest _; rfl
  | cons c pre' ih =>
    intro rest h
    have hc := h c (by simp)
    simp only [List.cons_append, searchO, hc]
    exact ih rest (fun d hd l' => h d (by simp [hd]) l')

theorem takeWhile_append_of_all {p : Char → Bool} :
    ∀ (l1 : List Char) (x : Char) (l2 : List Char),
      (∀ c ∈ l1, p c = true) → p x = false →
      List.takeWhile p (l1 ++ x :: l2) = l1 := by
  intro l1
  induction l1 with
  | nil => intro x l2 _ hx; simp [List.takeWhile, hx]
  | cons c cs ih =>
    intro x l2 hall hx
    have hc := hall c (by simp)
    simp [List.takeWhile, hc]
    exact ih x l2 (fun d hd => hall d (by simp [hd])) hx

theorem digit_not_ws : ∀ c : Char, c.isDigit = true → isPyWs c = false := by
  intro c h
  by_contra hw
  simp only [Bool.not_eq_false] at hw
  have hcase : c = ' ' ∨ c = '\t' ∨ c = '\n' ∨ c = '\r' ∨ c = '\x0b' ∨ c = '\x0c' := by
    simpa [isPyWs, or_assoc] using hw
  rcases hcase with rfl | rfl | rfl | rfl | rfl | rfl <;> exact absurd h (by decide)

theorem digit_ne_R : ∀ c : Char, c.isDigit = true → c ≠ 'R' := by
  intro c h heq
  subst heq
  exact absurd h (by decide)

theorem rationaleMatcher_ne_R :
    ∀ (c : Char) (l : List Char), c ≠ 'R' → rationaleMatcher (c :: l) = none := by
  intro c l hc
  have hcne : ¬('R' = c) := fun h => hc h.symm
  have hlit : "Rationale".toList = 'R' :: "ationale".toList := by decide
  unfold rationaleMatcher
  rw [hlit]
  simp [dropLit, hcne]

/-- A response of the canonical shape the prompt requests. -/
def mkLlmResponse (ds : List Char) (r : String) : String :=
  String.mk ("Confidence Score: ".toList ++ ds ++ '\n' :: "Rationale (HTML): ".toList ++ r.toList)

theorem scoreMatcher_at_response :
    ∀ (ds tail : List Char), ds ≠ [] → (∀ c ∈ ds, c.isDigit) →
      scoreMatcher ("Confidence Score: ".toList ++ (ds ++ '\n' :: tail)) =
        some (digitsToNat ds) := by
  intro ds tail hne hds
  have hsplit : "Confidence Score: ".toList =
      "Confidence Score:".toList ++ [' '] := by decide
  have h1 : List.dropWhile isPyWs ([' '] ++ (ds ++ '\n' :: tail))
      = ds ++ '\n' :: tail := by
    cases ds with
    | nil => exact absurd rfl hne
    | cons d ds' =>
      have hd : isPyWs d = false := digit_not_ws d (hds d (by simp))
      simp [List.dropWhile_cons, hd, (by decide : isPyWs ' ' = true)]
  have h2 : (ds ++ '\n' :: tail).takeWhile Char.isDigit = ds :=
    takeWhile_append_of_all ds '\n' tail hds (by decide)
  rw [hsplit, List.append_assoc]
  unfold scoreMatcher
  simp only [dropLit_append, h1, h2]
  cases ds with
  | nil => exact absurd rfl hne
  | cons d ds' => simp

theorem rationaleMatcher_at_label :
    ∀ r : String,
      rationaleMatcher ("Rationale (HTML): ".toList ++ r.toList) =
        some (pyStrip r) := by
  intro r
  have hsplit : "Rationale (HTML): ".toList =
      "Rationale".toList ++ (' ' :: ("(HTML):".toList ++ [' '])) := by decide
  have hpar : "(HTML):".toList = '(' :: "HTML):".toList := by decide
  have h1 : List.dropWhile isPyWs ((' ' :: ("(HTML):".toList ++ [' '])) ++ r.toList)
      = "(HTML):".toList ++ ([' '] ++ r.toList) := by
    rw [hpar]
    simp [List.dropWhile_cons, (by decide : isPyWs ' ' = true),
      (by decide : isPyWs '(' = false)]
  have h2 : stripChars ([' '] ++ r.toList) = stripChars r.toList := by
    simp [stripChars, List.dropWhile_cons, (by decide : isPyWs ' ' = true)]
  rw [hsplit, List.append_assoc]
  unfold rationaleMatcher
  simp only [dropLit_append, h1, h2]
  rfl

/-- Claim C9: parsing the exact response
`"Confidence Score: 42\nRationale (HTML): <p>ok</p>"` yields
`(42, "<p>ok</p>")`; in general, on a response of the canonical shape the
score is the integer denoted by the digit run following the literal label
`Confidence Score:` and the rationale is all text after the literal label
`Rationale (HTML):`, trimmed, taken verbatim up to end of input. -/
theorem parser_roundtrip_grammar :
    parse_llm_paper_confidence_output
        "Confidence Score: 42\nRationale (HTML): <p>ok</p>" = (some 42, "<p>ok</p>") ∧
    ∀ (ds : List Char) (r : String), ds ≠ [] → (∀ c ∈ ds, c.isDigit) →
      parse_llm_paper_confidence_output (mkLlmResponse ds r) =
        (some (digitsToNat ds), pyStrip r) := by
  constructor
  · decide
  · intro ds r hne hds
    have hfull : (mkLlmResponse ds r).toList =
        "Confidence Score: ".toList ++
          (ds ++ ('\n' :: ("Rationale (HTML): ".toList ++ r.toList))) := by
      simp [mkLlmResponse]
    unfold parse_llm_paper_confidence_output
    rw [hfull]
    simp only [Prod.mk.injEq]
    constructor
    · exact searchO_head _ _ _ (scoreMatcher_at_response ds
        ("Rationale (HTML): ".toList ++ r.toList) hne hds)
    · have hassoc :
          ("Confidence Score: ".toList ++
            (ds ++ ('\n' :: ("Rationale (HTML): ".toList ++ r.toList)))) =
          (("Confidence Score: ".toList ++ (ds ++ ['\n'])) ++
            ("Rationale (HTML): ".toList ++ r.toList)) := by
        simp [List.append_assoc]
      have hpre : ∀ c ∈ ("Confidence Score: ".toList ++ (ds ++ ['\n'])),
          ∀ l', rationaleMatcher (c :: l') = none := by
        intro c hc l'
        apply rationaleMatcher_ne_R
        rcases List.mem_append.1 hc with h | h
        · have hlab : ∀ c ∈ "Confidence Score: ".toList, c ≠ 'R' := by decide
          exact hlab c h
        · rcases List.mem_append.1 h with h2 | h2
          · exact digit_ne_R c (hds c h2)
          · simp at h2
            subst h2
            decide
      rw [hassoc, searchO_skip _ _ _ hpre,
          searchO_head _ _ _ (rationaleMatcher_at_label r)]
      rfl

theorem parser_roundtrip_grammar_witness :
    (['7'] ≠ ([] : List Char)) ∧ (∀ c ∈ (['7'] : List Char), c.isDigit) ∧
    parse_llm_paper_confidence_output (mkLlmResponse ['7'] " <b>x</b> ") =
      (some 7, "<b>x</b>") := by
  refine ⟨by decide, by decide, ?_⟩
  have h := parser_roundtrip_grammar.2 ['7'] " <b>x</b> " (by decide) (by decide)
  rw [h]
  decide

/-! ### Claim C6: topics truncation in the source-record rule -/

/-- A raw `topics` entry the comprehension keeps: a dict with a
`display_name` key. -/
def goodTopic : Json → Bool
  | .obj o => (Json.lookup "display_name" o).isSome
  | _ => false

theorem cleanTopics_length :
    ∀ l : List Json, (cleanTopics l).length = l.countP goodTopic := by
  intro l
  induction l with
  | nil => rfl
  | cons x rest ih =>
    cases x with
    | obj o =>
      cases hdn : Json.lookup "display_name" o with
      | some w => simp [cleanTopics, hdn, List.countP_cons, goodTopic, ih]
      | none => simp [cleanTopics, hdn, List.countP_cons, goodTopic, ih]
    | null => simp [cleanTopics, List.countP_cons, goodTopic, ih]
    | bool b => simp [cleanTopics, List.countP_cons, goodTopic, ih]
    | num n => simp [cleanTopics, List.countP_cons, goodTopic, ih]
    | str s => simp [cleanTopics, List.countP_cons, goodTopic, ih]
    | arr a => simp [cleanTopics, List.countP_cons, goodTopic, ih]

theorem cleanTopics_shape :
    ∀ (l : List Json) (e : Json), e ∈ cleanTopics l →
      ∃ w, e = .obj [("display_name", w)] := by
  intro l
  induction l with
  | nil => intro e he; simp [cleanTopics] at he
  | cons x rest ih =>
    intro e he
    cases x with
    | obj o =>
      cases hdn : Json.lookup "display_name" o with
      | some w =>
        rw [cleanTopics, hdn] at he
        rcases List.mem_cons.1 he with rfl | hmem
        · exact ⟨w, rfl⟩
        · exact ih e hmem
      | none => rw [cleanTopics, hdn] at he; exact ih e he
    | null => simp only [cleanTopics] at he; exact ih e he
    | bool b => simp only [cleanTopics] at he; exact ih e he
    | num n => simp only [cleanTopics] at he; exact ih e he
    | str s => simp only [cleanTopics] at he; exact ih e he
    | arr a => simp only [cleanTopics] at he; exact ih e he

theorem lookup_topics_cleanJournalDict :
    ∀ (o : List (String × Json)) (l : List Json),
      Json.lookup "topics" o = some (.arr l) →
      Json.lookup "topics" (cleanJournalDict o) =
        some (.arr (cleanTopics (l.take 25))) := by
  intro o
  induction o with
  | nil => intro l h; simp [Json.lookup] at h
  | cons kv rest ih =>
    intro l h
    obtain ⟨k, v⟩ := kv
    by_cases hk : k = "topics"
    · subst hk
      rw [Json.lookup, if_pos rfl] at h
      have hv : v = .arr l := by injection h
      subst hv
      simp [cleanJournalDict, journalFieldsToRemove, Json.isArr, Json.lookup]
    · rw [Json.lookup, if_neg hk] at h
      have ihl := ih l h
      by_cases h1 : k ∈ journalFieldsToRemove
      · have hne : k ≠ "topics" := hk
        simp [cleanJournalDict, h1, ihl]
      · by_cases h2 : k = "topics" ∧ v.isArr
        · exact absurd h2.1 hk
        · simp [cleanJournalDict, h1, h2, Json.lookup, hk, ihl]

/-- Claim C6 counterexample: a one-entry `topics` list whose entry is a
dict without `display_name` sanitizes to the empty list — length 0, not
`min(1, 25) = 1` as the claim states. -/
theorem topics_length_cex :
    Json.lookup "topics"
        (cleanJournalDict [("topics", .arr [.obj [("foo", .num 1)]])]) =
      some (.arr (cleanTopics ([Json.obj [("foo", .num 1)]].take 25))) ∧
    (cleanTopics ([Json.obj [("foo", .num 1)]].take 25)).length ≠
      min [Json.obj [("foo", .num 1)]].length 25 := by
  decide

/-- Claim C6 amended: for a raw source record with a `topics` list of
length n, the sanitized `topics` list keeps exactly those of the first
min(n, 25) entries that are dicts carrying `display_name` — its length is
min(n, 25) exactly when every such entry qualifies — and each sanitized
entry is a dict with exactly the one key `display_name`. -/
theorem topics_min_25_display_name :
    ∀ (o : List (String × Json)) (l : List Json),
      Json.lookup "topics" o = some (.arr l) →
      Json.lookup "topics" (cleanJournalDict o) =
        some (.arr (cleanTopics (l.take 25))) ∧
      (cleanTopics (l.take 25)).length = (l.take 25).countP goodTopic ∧
      ((∀ x ∈ l.take 25, goodTopic x) →
        (cleanTopics (l.take 25)).length = min l.length 25) ∧
      (∀ e ∈ cleanTopics (l.take 25), ∃ w, e = .obj [("display_name", w)]) := by
  intro o l h
  refine ⟨lookup_topics_cleanJournalDict o l h, cleanTopics_length _, ?_,
    cleanTopics_shape _⟩
  intro hall
  rw [cleanTopics_length, List.countP_eq_length.2 hall, List.length_take]
  omega

def c6Topics : List Json :=
  [.obj [("display_name", .str "Biology")],
   .obj [("display_name", .str "Ecology"), ("score", .num 3)]]

theorem topics_min_25_display_name_witness :
    Json.lookup "topics"
        (cleanJournalDict [("id", .str "X"), ("topics", .arr c6Topics)]) =
      some (.arr (cleanTopics (c6Topics.take 25))) ∧
    (cleanTopics (c6Topics.take 25)).length = min c6Topics.length 25 := by
  have h := topics_min_25_display_name
    [("id", .str "X"), ("topics", .arr c6Topics)] c6Topics (by decide)
  exact ⟨h.1, h.2.2.1 (by decide)⟩

/-! ### Claims C5 and C7: work-record rule lemmas -/

theorem cleanConcepts_shape :
    ∀ (l : List Json) (e : Json), e ∈ cleanConcepts l →
      ∃ w, e = .obj [("display_name", w)] := by
  intro l
  induction l with
  | nil => intro e he; simp [cleanConcepts] at he
  | cons x rest ih =>
    intro e he
    cases x with
    | obj o =>
      cases hdn : Json.lookup "display_name" o with
      | some w =>
        rw [cleanConcepts, hdn] at he
        rcases List.mem_cons.1 he with rfl | hmem
        · exact ⟨w, rfl⟩
        · exact ih e hmem
      | none => rw [cleanConcepts, hdn] at he; exact ih e he
    | null => simp only [cleanConcepts] at he; exact ih e he
    | bool b => simp only [cleanConcepts] at he; exact ih e he
    | num n => simp only [cleanConcepts] at he; exact ih e he
    | str s => simp only [cleanConcepts] at he; exact ih e he
    | arr a => simp only [cleanConcepts] at he; exact ih e he

theorem cleanConcepts_idem :
    ∀ l : List Json, cleanConcepts (cleanConcepts l) = cleanConcepts l := by
  intro l
  induction l with
  | nil => rfl
  | cons x rest ih =>
    cases x with
    | obj o =>
      cases hdn : Json.lookup "display_name" o with
      | some w => simp [cleanConcepts, hdn, Json.lookup, ih]
      | none => simp [cleanConcepts, hdn, ih]
    | null => simp only [cleanConcepts]; exact ih
    | bool b => simp only [cleanConcepts]; exact ih
    | num n => simp only [cleanConcepts]; exact ih
    | str s => simp only [cleanConcepts]; exact ih
    | arr a => simp only [cleanConcepts]; exact ih

theorem cleanConcepts_no_url :
    ∀ (l : List Json) (e : Json), e ∈ cleanConcepts l → isUrlStr e = false := by
  intro l e he
  obtain ⟨w, rfl⟩ := cleanConcepts_shape l e he
  rfl

theorem cleanWorkList_no_url :
    ∀ (l : List Json) (e : Json), e ∈ cleanWorkList l → isUrlStr e = false := by
  intro l
  induction l with
  | nil => intro e he; simp [cleanWorkList] at he
  | cons x rest ih =>
    intro e he
    cases x with
    | obj o =>
      rw [cleanWorkList] at he
      by_cases h6 : (cleanWorkObj o).isEmpty
      · rw [if_pos h6] at he; exact ih e he
      · rw [if_neg h6] at he
        rcases List.mem_cons.1 he with rfl | hmem
        · rfl
        · exact ih e hmem
    | str s =>
      rw [cleanWorkList] at he
      by_cases h6 : containsUrl s
      · rw [if_pos h6] at he; exact ih e he
      · rw [if_neg h6] at he
        rcases List.mem_cons.1 he with rfl | hmem
        · simpa [isUrlStr] using h6
        · exact ih e hmem
    | null =>
      simp only [cleanWorkList] at he
      rcases List.mem_cons.1 he with rfl | hmem
      · rfl
      · exact ih e hmem
    | bool b =>
      simp only [cleanWorkList] at he
      rcases List.mem_cons.1 he with rfl | hmem
      · rfl
      · exact ih e hmem
    | num n =>
      simp only [cleanWorkList] at he
      rcases List.mem_cons.1 he with rfl | hmem
      · rfl
      · exact ih e hmem
    | arr a =>
      simp only [cleanWorkList] at he
      rcases List.mem_cons.1 he with rfl | hmem
      · rfl
      · exact ih e hmem

theorem all_eq_false_of_ne_nil {p : Json → Bool} :
    ∀ l : List Json, l ≠ [] → (∀ x ∈ l, p x = false) → l.all p = false := by
  intro l hne hall
  cases l with
  | nil => exact absurd rfl hne
  | cons x rest => simp [List.all_cons, hall x (by simp)]

mutual

theorem cleanWorkObj_idem : ∀ l : List (String × Json),
    cleanWorkObj (cleanWorkObj l) = cleanWorkObj l
  | [] => by simp [cleanWorkObj]
  | (k, v) :: rest => by
    have ih : cleanWorkObj (cleanWorkObj rest) = cleanWorkObj rest :=
      cleanWorkObj_idem rest
    by_cases h1 : k ∈ workKeysToRemove
    · have e1 : cleanWorkObj ((k, v) :: rest) = cleanWorkObj rest := by
        rw [cleanWorkObj.eq_def]
        simp [h1]
      rw [e1]; exact ih
    · by_cases h2 : k = "id" ∨ k.endsWith "_id"
      · have e1 : cleanWorkObj ((k, v) :: rest) = cleanWorkObj rest := by
          rw [cleanWorkObj.eq_def]
          simp [h1, h2]
        rw [e1]; exact ih
      · by_cases h3 : isUrlStr v
        · have e1 : cleanWorkObj ((k, v) :: rest) = cleanWorkObj rest := by
            rw [cleanWorkObj.eq_def]
            simp [h1, h2, h3]
          rw [e1]; exact ih
        · by_cases h4 : isAllUrlList v
          · have e1 : cleanWorkObj ((k, v) :: rest) = cleanWorkObj rest := by
              rw [cleanWorkObj.eq_def]
              simp [h1, h2, h3, h4]
            rw [e1]; exact ih
          · by_cases h5 : k = "concepts" ∧ v.isArr
            · obtain ⟨hk, harr⟩ := h5
              subst hk
              have hid : "concepts".endsWith "_id" = false := by
                simpa using (not_or.1 h2).2
              cases v with
              | arr cs =>
                by_cases h6 : (cleanConcepts cs).isEmpty
                · have e1 : cleanWorkObj (("concepts", Json.arr cs) :: rest) =
                      cleanWorkObj rest := by
                    simp [cleanWorkObj, h1, hid, h3, h4, Json.isArr, h6]
                  rw [e1]; exact ih
                · have e1 : cleanWorkObj (("concepts", Json.arr cs) :: rest) =
                      ("concepts", .arr (cleanConcepts cs)) :: cleanWorkObj rest := by
                    simp [cleanWorkObj, h1, hid, h3, h4, Json.isArr, h6]
                  rw [e1]
                  have hno : ∀ e ∈ cleanConcepts cs, isUrlStr e = false :=
                    cleanConcepts_no_url cs
                  have hnil : cleanConcepts cs ≠ [] := by
                    intro hx; exact h6 (by simp [hx])
                  have hall : (cleanConcepts cs).all isUrlStr = false :=
                    all_eq_false_of_ne_nil _ hnil hno
                  have e2 : cleanWorkObj
                      (("concepts", Json.arr (cleanConcepts cs)) :: cleanWorkObj rest) =
                      ("concepts", .arr (cleanConcepts cs)) ::
                        cleanWorkObj (cleanWorkObj rest) := by
                    simp [cleanWorkObj, h1, hid, isUrlStr, isAllUrlList, hall,
                      Json.isArr, cleanConcepts_idem, h6]
                  rw [e2, ih]
              | null => simp [Json.isArr] at harr
              | bool b => simp [Json.isArr] at harr
              | num n => simp [Json.isArr] at harr
              | str s => simp [Json.isArr] at harr
              | obj o => simp [Json.isArr] at harr
            · cases v with
              | obj o =>
                have iho : cleanWorkObj (cleanWorkObj o) = cleanWorkObj o :=
                  cleanWorkObj_idem o
                by_cases h6 : (cleanWorkObj o).isEmpty
                · have e1 : cleanWorkObj ((k, Json.obj o) :: rest) =
                      cleanWorkObj rest := by
                    simp [cleanWorkObj, h1, h2, h3, h4, h5, h6]
                  rw [e1]; exact ih
                · have e1 : cleanWorkObj ((k, Json.obj o) :: rest) =
                      (k, .obj (cleanWorkObj o)) :: cleanWorkObj rest := by
                    simp [cleanWorkObj, h1, h2, h3, h4, h5, h6]
                  rw [e1]
                  have e2 : cleanWorkObj
                      ((k, Json.obj (cleanWorkObj o)) :: cleanWorkObj rest) =
                      (k, .obj (cleanWorkObj o)) :: cleanWorkObj (cleanWorkObj rest) := by
                    simp [cleanWorkObj, h1, h2, isUrlStr, isAllUrlList,
                      Json.isArr, iho, h6]
                  rw [e2, ih]
              | arr lv =>
                have hkc : k ≠ "concepts" := by
                  intro hk; exact h5 ⟨hk, rfl⟩
                have hguard : ¬(k = "concepts" ∧ (Json.arr (cleanWorkList lv)).isArr = true) := by
                  intro hx; exact hkc hx.1
                have il : cleanWorkList (cleanWorkList lv) = cleanWorkList lv :=
                  cleanWorkList_idem lv
                by_cases h6 : (cleanWorkList lv).isEmpty
                · have e1 : cleanWorkObj ((k, Json.arr lv) :: rest) =
                      cleanWorkObj rest := by
                    simp [cleanWorkObj, h1, h2, h3, h4, h5, h6]
                  rw [e1]; exact ih
                · have e1 : cleanWorkObj ((k, Json.arr lv) :: rest) =
                      (k, .arr (cleanWorkList lv)) :: cleanWorkObj rest := by
                    simp [cleanWorkObj, h1, h2, h3, h4, h5, h6]
                  rw [e1]
                  have hnil : cleanWorkList lv ≠ [] := by
                    intro hx; exact h6 (by simp [hx])
                  have hall : (cleanWorkList lv).all isUrlStr = false :=
                    all_eq_false_of_ne_nil _ hnil (cleanWorkList_no_url lv)
                  have e2 : cleanWorkObj
                      ((k, Json.arr (cleanWorkList lv)) :: cleanWorkObj rest) =
                      (k, .arr (cleanWorkList lv)) :: cleanWorkObj (cleanWorkObj rest) := by
                    simp [cleanWorkObj, h1, h2, isUrlStr, isAllUrlList, hall,
                      hguard, il, h6]
                  rw [e2, ih]
              | null =>
                have e1 : cleanWorkObj ((k, Json.null) :: rest) =
                    (k, Json.null) :: cleanWorkObj rest := by
                  simp [cleanWorkObj, h1, h2, h3, h4, h5]
                have e2 : cleanWorkObj ((k, Json.null) :: cleanWorkObj rest) =
                    (k, Json.null) :: cleanWorkObj (cleanWorkObj rest) := by
                  simp [cleanWorkObj, h1, h2, h3, h4, h5]
                rw [e1, e2, ih]
              | bool b =>
                have e1 : cleanWorkObj ((k, Json.bool b) :: rest) =
                    (k, Json.bool b) :: cleanWorkObj rest := by
                  simp [cleanWorkObj, h1, h2, h3, h4, h5]
                have e2 : cleanWorkObj ((k, Json.bool b) :: cleanWorkObj rest) =
                    (k, Json.bool b) :: cleanWorkObj (cleanWorkObj rest) := by
                  simp [cleanWorkObj, h1, h2, h3, h4, h5]
                rw [e1, e2, ih]
              | num n =>
                have e1 : cleanWorkObj ((k, Json.num n) :: rest) =
                    (k, Json.num n) :: cleanWorkObj rest := by
                  simp [cleanWorkObj, h1, h2, h3, h4, h5]
                have e2 : cleanWorkObj ((k, Json.num n) :: cleanWorkObj rest) =
                    (k, Json.num n) :: cleanWorkObj (cleanWorkObj rest) := by
                  simp [cleanWorkObj, h1, h2, h3, h4, h5]
                rw [e1, e2, ih]
              | str s =>
                have e1 : cleanWorkObj ((k, Json.str s) :: rest) =
                    (k, Json.str s) :: cleanWorkObj rest := by
                  simp [cleanWorkObj, h1, h2, h3, h4, h5]
                have e2 : cleanWorkObj ((k, Json.str s) :: cleanWorkObj rest) =
                    (k, Json.str s) :: cleanWorkObj (cleanWorkObj rest) := by
                  simp [cleanWorkObj, h1, h2, h3, h4, h5]
                rw [e1, e2, ih]

theorem cleanWorkList_idem : ∀ l : List Json,
    cleanWorkList (cleanWorkList l) = cleanWorkList l
  | [] => by simp [cleanWorkList]
  | x :: rest => by
    have ih : cleanWorkList (cleanWorkList rest) = cleanWorkList rest :=
      cleanWorkList_idem rest
    cases x with
    | obj o =>
      have iho : cleanWorkObj (cleanWorkObj o) = cleanWorkObj o :=
        cleanWorkObj_idem o
      by_cases h6 : (cleanWorkObj o).isEmpty
      · have e1 : cleanWorkList (Json.obj o :: rest) = cleanWorkList rest := by
          simp [cleanWorkList, h6]
        rw [e1]; exact ih
      · have e1 : cleanWorkList (Json.obj o :: rest) =
            .obj (cleanWorkObj o) :: cleanWorkList rest := by
          simp [cleanWorkList, h6]
        rw [e1]
        have e2 : cleanWorkList (Json.obj (cleanWorkObj o) :: cleanWorkList rest) =
            .obj (cleanWorkObj o) :: cleanWorkList (cleanWorkList rest) := by
          simp [cleanWorkList, iho, h6]
        rw [e2, ih]
    | str s =>
      by_cases h6 : containsUrl s
      · have e1 : cleanWorkList (Json.str s :: rest) = cleanWorkList rest := by
          simp [cleanWorkList, h6]
        rw [e1]; exact ih
      · have e1 : cleanWorkList (Json.str s :: rest) =
            .str s :: cleanWorkList rest := by
          simp [cleanWorkList, h6]
        have e2 : cleanWorkList (Json.str s :: cleanWorkList rest) =
            .str s :: cleanWorkList (cleanWorkList rest) := by
          simp [cleanWorkList, h6]
        rw [e1, e2, ih]
    | null =>
      have e1 : cleanWorkList (Json.null :: rest) =
          Json.null :: cleanWorkList rest := by
        simp [cleanWorkList]
      have e2 : cleanWorkList (Json.null :: cleanWorkList rest) =
          Json.null :: cleanWorkList (cleanWorkList rest) := by
        simp [cleanWorkList]
      rw [e1, e2, ih]
    | bool b =>
      have e1 : cleanWorkList (Json.bool b :: rest) =
          Json.bool b :: cleanWorkList rest := by
        simp [cleanWorkList]
      have e2 : cleanWorkList (Json.bool b :: cleanWorkList rest) =
          Json.bool b :: cleanWorkList (cleanWorkList rest) := by
        simp [cleanWorkList]
      rw [e1, e2, ih]
    | num n =>
      have e1 : cleanWorkList (Json.num n :: rest) =
          Json.num n :: cleanWorkList rest := by
        simp [cleanWorkList]
      have e2 : cleanWorkList (Json.num n :: cleanWorkList rest) =
          Json.num n :: cleanWorkList (cleanWorkList rest) := by
        simp [cleanWorkList]
      rw [e1, e2, ih]
    | arr a =>
      have e1 : cleanWorkList (Json.arr a :: rest) =
          Json.arr a :: cleanWorkList rest := by
        simp [cleanWorkList]
      have e2 : cleanWorkList (Json.arr a :: cleanWorkList rest) =
          Json.arr a :: cleanWorkList (cleanWorkList rest) := by
        simp [cleanWorkList]
      rw [e1, e2, ih]

end

theorem cleanTopics_idem :
    ∀ l : List Json, cleanTopics (cleanTopics l) = cleanTopics l := by
  intro l
  induction l with
  | nil => rfl
  | cons x rest ih =>
    cases x with
    | obj o =>
      cases hdn : Json.lookup "display_name" o with
      | some w => simp [cleanTopics, hdn, Json.lookup, ih]
      | none => simp [cleanTopics, hdn, ih]
    | null => simp only [cleanTopics]; exact ih
    | bool b => simp only [cleanTopics]; exact ih
    | num n => simp only [cleanTopics]; exact ih
    | str s => simp only [cleanTopics]; exact ih
    | arr a => simp only [cleanTopics]; exact ih

theorem cleanTopics_length_le :
    ∀ l : List Json, (cleanTopics l).length ≤ l.length := by
  intro l
  rw [cleanTopics_length]
  exact List.countP_le_length _

theorem cleanJournalDict_idem :
    ∀ o : List (String × Json),
      cleanJournalDict (cleanJournalDict o) = cleanJournalDict o := by
  intro o
  induction o with
  | nil => rfl
  | cons kv rest ih =>
    obtain ⟨k, v⟩ := kv
    by_cases h1 : k ∈ journalFieldsToRemove
    · have e1 : cleanJournalDict ((k, v) :: rest) = cleanJournalDict rest := by
        rw [cleanJournalDict.eq_def]
        simp [h1]
      rw [e1]; exact ih
    · by_cases h2 : k = "topics" ∧ v.isArr
      · obtain ⟨hk, harr⟩ := h2
        subst hk
        cases v with
        | arr l =>
          have e1 : cleanJournalDict (("topics", Json.arr l) :: rest) =
              ("topics", .arr (cleanTopics (l.take 25))) :: cleanJournalDict rest := by
            rw [cleanJournalDict.eq_def]
            simp [h1, Json.isArr]
          rw [e1]
          have hlen : (cleanTopics (l.take 25)).length ≤ 25 :=
            le_trans (cleanTopics_length_le _) (by simp)
          have e2 : cleanJournalDict
              (("topics", Json.arr (cleanTopics (l.take 25))) :: cleanJournalDict rest) =
              ("topics", .arr (cleanTopics (l.take 25))) ::
                cleanJournalDict (cleanJournalDict rest) := by
            rw [cleanJournalDict.eq_def]
            simp [h1, Json.isArr, List.take_of_length_le hlen, cleanTopics_idem]
          rw [e2, ih]
        | null => simp [Json.isArr] at harr
        | bool b => simp [Json.isArr] at harr
        | num n => simp [Json.isArr] at harr
        | str s => simp [Json.isArr] at harr
        | obj o2 => simp [Json.isArr] at harr
      · have e1 : cleanJournalDict ((k, v) :: rest) =
            (k, v) :: cleanJournalDict rest := by
          rw [cleanJournalDict.eq_def]
          simp [h1, h2]
        have e2 : cleanJournalDict ((k, v) :: cleanJournalDict rest) =
            (k, v) :: cleanJournalDict (cleanJournalDict rest) := by
          rw [cleanJournalDict.eq_def]
          simp [h1, h2]
        rw [e1, e2, ih]

theorem lookup_none_cleanJournalDict :
    ∀ (k : String) (o : List (String × Json)),
      Json.lookup k o = none → Json.lookup k (cleanJournalDict o) = none := by
  intro k o
  induction o with
  | nil => intro _; rfl
  | cons kv rest ih =>
    obtain ⟨k', v⟩ := kv
    intro h
    rw [Json.lookup] at h
    by_cases hk : k' = k
    · rw [if_pos hk] at h; exact absurd h (by simp)
    · rw [if_neg hk] at h
      by_cases h1 : k' ∈ journalFieldsToRemove
      · have e1 : cleanJournalDict ((k', v) :: rest) = cleanJournalDict rest := by
          rw [cleanJournalDict.eq_def]
          simp [h1]
        rw [e1]; exact ih h
      · by_cases h2 : k' = "topics" ∧ v.isArr
        · obtain ⟨hk', harr⟩ := h2
          subst hk'
          cases v with
          | arr l =>
            have e1 : cleanJournalDict (("topics", Json.arr l) :: rest) =
                ("topics", .arr (cleanTopics (l.take 25))) :: cleanJournalDict rest := by
              rw [cleanJournalDict.eq_def]
              simp [h1, Json.isArr]
            rw [e1, Json.lookup, if_neg hk]
            exact ih h
          | null => simp [Json.isArr] at harr
          | bool b => simp [Json.isArr] at harr
          | num n => simp [Json.isArr] at harr
          | str s => simp [Json.isArr] at harr
          | obj o2 => simp [Json.isArr] at harr
        · have e1 : cleanJournalDict ((k', v) :: rest) =
              (k', v) :: cleanJournalDict rest := by
            rw [cleanJournalDict.eq_def]
            simp [h1, h2]
          rw [e1, Json.lookup, if_neg hk]
          exact ih h

theorem mapCleanJournal_idem :
    ∀ items : List Json,
      mapCleanJournal (mapCleanJournal items) = mapCleanJournal items := by
  intro items
  induction items with
  | nil => rfl
  | cons x rest ih =>
    cases x with
    | obj d => simp [mapCleanJournal, cleanJournalDict_idem, ih]
    | null => simp only [mapCleanJournal]; exact ih
    | bool b => simp only [mapCleanJournal]; exact ih
    | num n => simp only [mapCleanJournal]; exact ih
    | str s => simp only [mapCleanJournal]; exact ih
    | arr a => simp only [mapCleanJournal]; exact ih

theorem mapCleanWork_idem :
    ∀ (l outs : List Json),
      mapCleanWork l = some outs → mapCleanWork outs = some outs := by
  intro l
  induction l with
  | nil =>
    intro outs h
    simp [mapCleanWork] at h
    subst h
    rfl
  | cons x rest ih =>
    intro outs h
    cases x with
    | obj o =>
      rw [mapCleanWork] at h
      cases hm : mapCleanWork rest with
      | none => rw [hm] at h; exact absurd h (by simp)
      | some out' =>
        rw [hm] at h
        simp only [Option.some.injEq] at h
        subst h
        have hrest := ih out' hm
        rw [mapCleanWork, hrest, cleanWorkObj_idem]
    | null => simp only [mapCleanWork] at h; exact absurd h (by simp)
    | bool b => simp only [mapCleanWork] at h; exact absurd h (by simp)
    | num n => simp only [mapCleanWork] at h; exact absurd h (by simp)
    | str s => simp only [mapCleanWork] at h; exact absurd h (by simp)
    | arr a => simp only [mapCleanWork] at h; exact absurd h (by simp)

/-- Claim C5: both sanitizing rules are idempotent.  Stated through
`Option.bind` so that the list form of the work rule (which raises on a
non-dict element, modelled as `none`) is covered as well: wherever the
sanitizer is defined, applying it to its own output reproduces that
output. -/
theorem sanitizers_idempotent :
    (∀ j : Json, (pre_process_journal_openalex_data j).bind
        pre_process_journal_openalex_data = pre_process_journal_openalex_data j) ∧
    (∀ j : Json, (pre_processed_research_paper_openalex_metadata j).bind
        pre_processed_research_paper_openalex_metadata =
        pre_processed_research_paper_openalex_metadata j) := by
  constructor
  · intro j
    cases j with
    | null => rfl
    | bool b => rfl
    | num n => rfl
    | str s => rfl
    | arr items =>
      simp [pre_process_journal_openalex_data, mapCleanJournal_idem]
    | obj o =>
      cases hres : Json.lookup "results" o with
      | none =>
        have h2 := lookup_none_cleanJournalDict "results" o hres
        simp [pre_process_journal_openalex_data, hres, h2, cleanJournalDict_idem]
      | some v =>
        cases v with
        | arr items =>
          simp [pre_process_journal_openalex_data, hres, mapCleanJournal_idem]
        | obj o2 =>
          simp [pre_process_journal_openalex_data, hres, mapCleanJournal]
        | str s =>
          simp [pre_process_journal_openalex_data, hres, mapCleanJournal]
        | null => simp [pre_process_journal_openalex_data, hres]
        | num n => simp [pre_process_journal_openalex_data, hres]
        | bool b => simp [pre_process_journal_openalex_data, hres]
  · intro j
    cases j with
    | null => rfl
    | bool b => rfl
    | num n => rfl
    | str s => rfl
    | obj o =>
      simp [pre_processed_research_paper_openalex_metadata, cleanWorkObj_idem]
    | arr l =>
      cases hm : mapCleanWork l with
      | none => simp [pre_processed_research_paper_openalex_metadata, hm]
      | some outs =>
        simp [pre_processed_research_paper_openalex_metadata, hm,
          mapCleanWork_idem l outs hm]

/-! ### Claim C7: URL scrubbing in the work-record rule -/

/-- Every entry of a sanitized `concepts` list is a single-key
`display_name` dict. -/
def conceptsShapeCheck (l : List Json) : Bool :=
  l.all fun x =>
    match x with
    | .obj [(k, _)] => k == "display_name"
    | _ => false

mutual

/-- The URL-scrubbing guarantee the work-record rule actually establishes
on a cleaned dict: no direct string value contains the provider's
entity-URL prefix; string elements of direct list values are likewise
prefix-free, those lists are non-empty, and nested dicts satisfy the same
check recursively.  The two places the rule leaves unexamined are excluded:
entries of a `concepts` list (whose `display_name` payload is copied
verbatim) and lists nested inside lists (passed through unchanged). -/
def cleanObjCheck : List (String × Json) → Bool
  | [] => true
  | (k, v) :: rest => entryCheck k v && cleanObjCheck rest

def entryCheck : String → Json → Bool
  | _, .str s => !containsUrl s
  | _, .obj o => cleanObjCheck o
  | k, .arr l =>
    if k = "concepts" then !l.isEmpty && conceptsShapeCheck l
    else !l.isEmpty && elemsCheck l
  | _, _ => true

def elemsCheck : List Json → Bool
  | [] => true
  | x :: rest =>
    (match x with
     | .str s => !containsUrl s
     | .obj o => cleanObjCheck o
     | _ => true) && elemsCheck rest

end

theorem cleanConcepts_shapeCheck :
    ∀ cs : List Json, conceptsShapeCheck (cleanConcepts cs) = true := by
  intro cs
  rw [conceptsShapeCheck, List.all_eq_true]
  intro x hx
  obtain ⟨w, rfl⟩ := cleanConcepts_shape cs x hx
  simp

mutual

theorem cleanWorkObj_check : ∀ l : List (String × Json),
    cleanObjCheck (cleanWorkObj l) = true
  | [] => by simp [cleanWorkObj, cleanObjCheck]
  | (k, v) :: rest => by
    have ih : cleanObjCheck (cleanWorkObj rest) = true := cleanWorkObj_check rest
    by_cases h1 : k ∈ workKeysToRemove
    · have e1 : cleanWorkObj ((k, v) :: rest) = cleanWorkObj rest := by
        rw [cleanWorkObj.eq_def]
        simp [h1]
      rw [e1]; exact ih
    · by_cases h2 : k = "id" ∨ k.endsWith "_id"
      · have e1 : cleanWorkObj ((k, v) :: rest) = cleanWorkObj rest := by
          rw [cleanWorkObj.eq_def]
          simp [h1, h2]
        rw [e1]; exact ih
      · by_cases h3 : isUrlStr v
        · have e1 : cleanWorkObj ((k, v) :: rest) = cleanWorkObj rest := by
            rw [cleanWorkObj.eq_def]
            simp [h1, h2, h3]
          rw [e1]; exact ih
        · by_cases h4 : isAllUrlList v
          · have e1 : cleanWorkObj ((k, v) :: rest) = cleanWorkObj rest := by
              rw [cleanWorkObj.eq_def]
              simp [h1, h2, h3, h4]
            rw [e1]; exact ih
          · by_cases h5 : k = "concepts" ∧ v.isArr
            · obtain ⟨hk, harr⟩ := h5
              subst hk
              have hid : "concepts".endsWith "_id" = false := by
                simpa using (not_or.1 h2).2
              cases v with
              | arr cs =>
                by_cases h6 : (cleanConcepts cs).isEmpty
                · have e1 : cleanWorkObj (("concepts", Json.arr cs) :: rest) =
                      cleanWorkObj rest := by
                    simp [cleanWorkObj, h1, hid, h3, h4, Json.isArr, h6]
                  rw [e1]; exact ih
                · have e1 : cleanWorkObj (("concepts", Json.arr cs) :: rest) =
                      ("concepts", .arr (cleanConcepts cs)) :: cleanWorkObj rest := by
                    simp [cleanWorkObj, h1, hid, h3, h4, Json.isArr, h6]
                  rw [e1]
                  simp [cleanObjCheck, entryCheck, h6, cleanConcepts_shapeCheck, ih]
              | null => simp [Json.isArr] at harr
              | bool b => simp [Json.isArr] at harr
              | num n => simp [Json.isArr] at harr
              | str s => simp [Json.isArr] at harr
              | obj o => simp [Json.isArr] at harr
            · cases v with
              | obj o =>
                have iho : cleanObjCheck (cleanWorkObj o) = true :=
                  cleanWorkObj_check o
                by_cases h6 : (cleanWorkObj o).isEmpty
                · have e1 : cleanWorkObj ((k, Json.obj o) :: rest) =
                      cleanWorkObj rest := by
                    simp [cleanWorkObj, h1, h2, h3, h4, h5, h6]
                  rw [e1]; exact ih
                · have e1 : cleanWorkObj ((k, Json.obj o) :: rest) =
                      (k, .obj (cleanWorkObj o)) :: cleanWorkObj rest := by
                    simp [cleanWorkObj, h1, h2, h3, h4, h5, h6]
                  rw [e1]
                  simp [cleanObjCheck, entryCheck, iho, ih]
              | arr lv =>
                have il : elemsCheck (cleanWorkList lv) = true :=
                  cleanWorkList_check lv
                have hkc : k ≠ "concepts" := by
                  intro hk; exact h5 ⟨hk, rfl⟩
                by_cases h6 : (cleanWorkList lv).isEmpty
                · have e1 : cleanWorkObj ((k, Json.arr lv) :: rest) =
                      cleanWorkObj rest := by
                    simp [cleanWorkObj, h1, h2, h3, h4, h5, h6]
                  rw [e1]; exact ih
                · have e1 : cleanWorkObj ((k, Json.arr lv) :: rest) =
                      (k, .arr (cleanWorkList lv)) :: cleanWorkObj rest := by
                    simp [cleanWorkObj, h1, h2, h3, h4, h5, h6]
                  rw [e1]
                  simp [cleanObjCheck, entryCheck, hkc, h6, il, ih]
              | null =>
                have e1 : cleanWorkObj ((k, Json.null) :: rest) =
                    (k, Json.null) :: cleanWorkObj rest := by
                  simp [cleanWorkObj, h1, h2, h3, h4, h5]
                rw [e1]
                simp [cleanObjCheck, entryCheck, ih]
              | bool b =>
                have e1 : cleanWorkObj ((k, Json.bool b) :: rest) =
                    (k, Json.bool b) :: cleanWorkObj rest := by
                  simp [cleanWorkObj, h1, h2, h3, h4, h5]
                rw [e1]
                simp [cleanObjCheck, entryCheck, ih]
              | num n =>
                have e1 : cleanWorkObj ((k, Json.num n) :: rest) =
                    (k, Json.num n) :: cleanWorkObj rest := by
                  simp [cleanWorkObj, h1, h2, h3, h4, h5]
                rw [e1]
                simp [cleanObjCheck, entryCheck, ih]
              | str s =>
                have e1 : cleanWorkObj ((k, Json.str s) :: rest) =
                    (k, Json.str s) :: cleanWorkObj rest := by
                  simp [cleanWorkObj, h1, h2, h3, h4, h5]
                rw [e1]
                have hs : containsUrl s = false := by
                  simpa [isUrlStr] using h3
                simp [cleanObjCheck, entryCheck, hs, ih]

theorem cleanWorkList_check : ∀ l : List Json,
    elemsCheck (cleanWorkList l) = true
  | [] => by simp [cleanWorkList, elemsCheck]
  | x :: rest => by
    have ih : elemsCheck (cleanWorkList rest) = true := cleanWorkList_check rest
    cases x with
    | obj o =>
      have iho : cleanObjCheck (cleanWorkObj o) = true := cleanWorkObj_check o
      by_cases h6 : (cleanWorkObj o).isEmpty
      · have e1 : cleanWorkList (Json.obj o :: rest) = cleanWorkList rest := by
          simp [cleanWorkList, h6]
        rw [e1]; exact ih
      · have e1 : cleanWorkList (Json.obj o :: rest) =
            .obj (cleanWorkObj o) :: cleanWorkList rest := by
          simp [cleanWorkList, h6]
        rw [e1]
        simp [elemsCheck, iho, ih]
    | str s =>
      by_cases h6 : containsUrl s
      · have e1 : cleanWorkList (Json.str s :: rest) = cleanWorkList rest := by
          simp [cleanWorkList, h6]
        rw [e1]; exact ih
      · have e1 : cleanWorkList (Json.str s :: rest) =
            .str s :: cleanWorkList rest := by
          simp [cleanWorkList, h6]
        rw [e1]
        simp [elemsCheck, h6, ih]
    | null =>
      have e1 : cleanWorkList (Json.null :: rest) =
          Json.null :: cleanWorkList rest := by
        simp [cleanWorkList]
      rw [e1]
      simp [elemsCheck, ih]
    | bool b =>
      have e1 : cleanWorkList (Json.bool b :: rest) =
          Json.bool b :: cleanWorkList rest := by
        simp [cleanWorkList]
      rw [e1]
      simp [elemsCheck, ih]
    | num n =>
      have e1 : cleanWorkList (Json.num n :: rest) =
          Json.num n :: cleanWorkList rest := by
        simp [cleanWorkList]
      rw [e1]
      simp [elemsCheck, ih]
    | arr a =>
      have e1 : cleanWorkList (Json.arr a :: rest) =
          Json.arr a :: cleanWorkList rest := by
        simp [cleanWorkList]
      rw [e1]
      simp [elemsCheck, ih]

end

/-- The C7 counterexample record: a field holding a list whose only element
is a list of OpenAlex URLs. -/
def urlLeakRecord : List (String × Json) :=
  [("a", .arr [.arr [.str "https://openalex.org/W1"]])]

/-- Claim C7 counterexample: the work-record rule passes lists nested
inside lists through unexamined, so the sanitized output of
`urlLeakRecord` is unchanged — it still contains a string value with the
provider's entity-URL prefix, inside a list consisting entirely of such
strings. -/
theorem work_url_scrub_cex :
    pre_processed_research_paper_openalex_metadata (.obj urlLeakRecord) =
      some (.obj urlLeakRecord) ∧
    Json.lookup "a" urlLeakRecord =
      some (.arr [.arr [.str "https://openalex.org/W1"]]) ∧
    containsUrl "https://openalex.org/W1" = true ∧
    isAllUrlList (.arr [.str "https://openalex.org/W1"]) = true := by
  have hobj0 : cleanWorkObj ([] : List (String × Json)) = [] := by
    rw [cleanWorkObj.eq_def]
  have hlist0 : cleanWorkList ([] : List Json) = [] := by
    rw [cleanWorkList.eq_def]
  have hlist : cleanWorkList [Json.arr [Json.str "https://openalex.org/W1"]] =
      [Json.arr [Json.str "https://openalex.org/W1"]] := by
    rw [cleanWorkList.eq_def]
    simp [hlist0]
  have hobj : cleanWorkObj urlLeakRecord = urlLeakRecord := by
    rw [urlLeakRecord, cleanWorkObj.eq_def]
    simp [hlist, hobj0,
      (by decide : ¬("a" ∈ workKeysToRemove)),
      (by decide : ¬("a" = "id" ∨ "a".endsWith "_id" = true)),
      (by decide : "a".endsWith "_id" = false),
      (by decide : isUrlStr (Json.arr [Json.arr [Json.str "https://openalex.org/W1"]]) = false),
      (by decide : isAllUrlList (Json.arr [Json.arr [Json.str "https://openalex.org/W1"]]) = false),
      (by decide : ¬("a" = "concepts"))]
  refine ⟨?_, by decide, by decide, by decide⟩
  show pre_processed_research_paper_openalex_metadata (.obj urlLeakRecord) = _
  rw [pre_processed_research_paper_openalex_metadata, hobj]

/-- Claim C7 amended: for every raw work record, the sanitized output
satisfies `cleanObjCheck`: no string value of any nested dict field
contains the provider's entity-URL prefix, no direct string element of a
dict-level list does (and those lists are non-empty, hence never consist
entirely of URL strings) — except inside `concepts` entries, whose
`display_name` payload is copied verbatim, and inside lists nested within
lists, which the rule passes through unexamined. -/
theorem work_url_scrub_invariant :
    ∀ o : List (String × Json),
      cleanObjCheck (cleanWorkObj o) = true ∧
      pre_processed_research_paper_openalex_metadata (.obj o) =
        some (.obj (cleanWorkObj o)) :=
  fun o => ⟨cleanWorkObj_check o, rfl⟩
